import Mathlib

set_option linter.unusedVariables false

/-!
Shallow embedding of the `structurizr_excel` package
(`src/structurizr_excel/loader.py` and `src/structurizr_excel/builder.py`):
the pipeline that turns spreadsheet rows (Applications, Flows,
BusinessProcesses) into a Structurizr workspace graph.

Mutable Python objects (groups/containers with a `.tags` list) are embedded
as a build state carrying immutable node descriptions plus a tag map keyed by
node reference; Python dicts (`elem_by_id`, `groups_by_id`, `org_systems`)
are association lists with in-place overwrite, which preserves dict insertion
order for `.values()`.
-/

/-! ## Character and string utilities
`re.split(r"[;,\s]+", ...)`, `str.lower`, `str.strip`, `str.startswith`,
and `camel` from builder.py. -/

/-- Python whitespace as used by `\s` and `str.strip`. -/
def isPyWs (c : Char) : Bool :=
  c == ' ' || c == '\t' || c == '\n' || c == '\r' || c == '\x0b' || c == '\x0c'

/-- Separator characters of `re.split(r"[;,\s]+", ...)` in `split_multi`. -/
def isSepChar (c : Char) : Bool := c == ';' || c == ',' || isPyWs c

/-- Split a character list at every character satisfying `p`; runs of
separators yield empty tokens, which callers filter away (so the result
matches `re.split` on a `+`-quantified class after dropping empties). -/
def splitOnP (p : Char → Bool) : List Char → List (List Char)
  | [] => [[]]
  | c :: cs =>
    match splitOnP p cs with
    | [] => [[]]
    | t :: ts => if p c then [] :: t :: ts else (c :: t) :: ts

/-- Python `str.lower` (ASCII, which is all the repository tags use). -/
def lowerStr (s : String) : String := ⟨s.data.map Char.toLower⟩

/-- Python `str.strip()`. -/
def trimStr (s : String) : String :=
  ⟨((s.data.dropWhile isPyWs).reverse.dropWhile isPyWs).reverse⟩

/-- builder.py `split_multi`: lowercase, split on `[;,\s]+`, drop empties,
collect as a set (kept here as a first-occurrence deduplicated list). -/
def splitMulti (txt : String) : List String :=
  (((splitOnP isSepChar (lowerStr txt).data).map (fun l => (⟨l⟩ : String))).filter
    (fun t => t != "")).eraseDups

/-- Boolean "first list is an initial segment of the second". -/
def listIsPre : List Char → List Char → Bool
  | [], _ => true
  | _ :: _, [] => false
  | c :: cs, d :: ds => c == d && listIsPre cs ds

/-- Python `s.startswith(p)`. -/
def strStarts (s p : String) : Bool := listIsPre p.data s.data

/-- The character class `[0-9a-zA-Z]` of builder.py `camel`. -/
def isAlnumChar (c : Char) : Bool :=
  ('0' ≤ c && c ≤ '9') || ('a' ≤ c && c ≤ 'z') || ('A' ≤ c && c ≤ 'Z')

/-- Python `str.capitalize`: first character uppercased, rest lowercased. -/
def capWord : List Char → List Char
  | [] => []
  | c :: cs => Char.toUpper c :: cs.map Char.toLower

/-- builder.py `camel`: split on non-alphanumerics, capitalize each word,
concatenate. -/
def camel (txt : String) : String :=
  ⟨(((splitOnP (fun c => !isAlnumChar c) txt.data).filter (fun w => w ≠ [])).map
      capWord).foldr (· ++ ·) []⟩

/-! ## Data model
Typed images of the spreadsheet rows after `loader._read` (strings, stripped,
missing cells read as `""`; `Status` lowercased by `load_excel`). -/

/-- One row of the Applications sheet. -/
structure AppRow where
  id : String
  name : String
  application : String
  component : String
  parentAppID : String
  status : String
  organisation : String
  description : String
deriving DecidableEq, Repr

/-- One row of the Flows sheet. -/
structure FlowRow where
  id : String
  name : String
  outbound : String
  inbound : String
  objet : String
  protocol : String
  format : String
  tagsCell : String
  businessProcess : String
deriving DecidableEq, Repr

/-- One row of the BusinessProcesses sheet. -/
structure ProcRow where
  id : String
  name : String
deriving DecidableEq, Repr

/-- Relationship deduplication key of builder.py line 106:
`(f["Outbound"], f["Inbound"], f["Objet"], f["Protocol"], f["Format"])`. -/
structure FlowKey where
  outbound : String
  inbound : String
  objet : String
  protocol : String
  format : String
deriving DecidableEq, Repr

def flowKeyOf (f : FlowRow) : FlowKey :=
  ⟨f.outbound, f.inbound, f.objet, f.protocol, f.format⟩

/-- Reference to a node object: the i-th created Group or the i-th created
Container (Python object identity). -/
inductive NodeRef where
  | group (i : Nat)
  | cont (i : Nat)
deriving DecidableEq, Repr

/-- A `src.uses(dst, desc, protocol)` relationship. -/
structure RelEdge where
  src : NodeRef
  dst : NodeRef
  desc : String
  protocol : String
deriving DecidableEq, Repr

/-- Static data of a Group created from a top-level Application row:
`sys.Group(row["Name"])` nested under the SoftwareSystem `sysName`. -/
structure GroupInfo where
  id : String
  name : String
  sysName : String
deriving DecidableEq, Repr

/-- Static data of a Container created from a Component row;
`parent` is the index of its Group. -/
structure ContInfo where
  id : String
  name : String
  description : String
  parent : Nat
deriving DecidableEq, Repr

/-- A view appended by the per-BusinessProcess loop: key, description, and
the included container indices. -/
structure ViewS where
  key : String
  desc : String
  includes : List Nat
deriving DecidableEq, Repr

/-- The whole mutable state of `build_workspace`.  `tags` maps each node
object to its (ordered) tag list. -/
structure BuildData where
  orgSystems : List String
  groups : List GroupInfo
  containers : List ContInfo
  elemById : List (String × NodeRef)
  groupsById : List (String × Nat)
  warnings : List String
  rels : List RelEdge
  seen : List FlowKey
  tags : NodeRef → List String
  views : List ViewS

/-! ## Association-list operations (Python dict) -/

/-- Python dict lookup `d.get(k)`. -/
def assocGet (l : List (String × α)) (k : String) : Option α :=
  (l.find? (fun p => p.1 == k)).map (·.2)

/-- Python dict assignment `d[k] = v`: overwrite in place, insertion order
preserved. -/
def assocUpd : List (String × α) → String → α → List (String × α)
  | [], k, v => [(k, v)]
  | (k', v') :: rest, k, v =>
    if k' == k then (k, v) :: rest else (k', v') :: assocUpd rest k v

/-- Python dict `d.values()`. -/
def assocValues (l : List (String × α)) : List α := l.map (·.2)

/-! ## builder.py `build_workspace` -/

/-- Set the tag list of one node (mutation of the `.tags` list of a Python
object). -/
def updTags (st : BuildData) (r : NodeRef) (v : List String) : BuildData :=
  { st with tags := fun r' => if r' = r then v else st.tags r' }

/-- Builder line 78: `row.get("Organisation", "Unknown") or "Unknown"` — an
empty cell is falsy and falls back to Unknown. -/
def orgNameOf (r : AppRow) : String :=
  if r.organisation = "" then "Unknown" else r.organisation

/-- Builder lines 84 and 96: the status tag, defaulting to keep when the
Status cell is empty (empty string is falsy). -/
def statusTagOf (r : AppRow) : String :=
  "status:" ++ (if r.status = "" then "keep" else r.status)

/-- Builder lines 77-86: one top-level Application row becomes a Group under
the SoftwareSystem named by its Organisation (created on first use). -/
def addAppGroup (st : BuildData) (r : AppRow) : BuildData :=
  let orgName := orgNameOf r
  let st :=
    if orgName ∈ st.orgSystems then st
    else { st with orgSystems := st.orgSystems ++ [orgName] }
  let gi := st.groups.length
  let st :=
    { st with
      groups := st.groups ++ [⟨r.id, r.name, orgName⟩],
      elemById := assocUpd st.elemById r.id (.group gi),
      groupsById := assocUpd st.groupsById r.id gi }
  updTags st (.group gi) ["ApplicationGroup", statusTagOf r]

/-- Builder lines 89-98: one Component row becomes a Container of its parent
Group, or is skipped with a warning when the parent id is unknown. -/
def addContainer (st : BuildData) (r : AppRow) : BuildData :=
  match assocGet st.groupsById r.parentAppID with
  | none =>
    { st with
      warnings := st.warnings ++
        ["Skip container " ++ r.id ++ ": parent " ++ r.parentAppID ++ " missing"] }
  | some p =>
    let ci := st.containers.length
    let st :=
      { st with
        containers := st.containers ++ [⟨r.id, r.name, r.description, p⟩],
        elemById := assocUpd st.elemById r.id (.cont ci) }
    updTags st (.cont ci) ["ApplicationContainer", statusTagOf r]

/-- Builder lines 115-116: append the tag to the node unless already there. -/
def addProcTag (st : BuildData) (r : NodeRef) (tag : String) : BuildData :=
  if tag ∈ st.tags r then st else updTags st r (st.tags r ++ [tag])

/-- Builder lines 112-116: for each process token, tag both endpoints. -/
def addFlowTags (src dst : NodeRef) (st : BuildData) (toks : List String) : BuildData :=
  toks.foldl (fun st p =>
    let tag := "proc:" ++ p
    addProcTag (addProcTag st src tag) dst tag) st

/-- Builder lines 102-116: resolve the endpoints, skip unresolved rows,
deduplicate on the flow key, create the relationship (`Name or Objet` as
description) and tag the endpoints with the business processes of the row. -/
def processFlow (st : BuildData) (f : FlowRow) : BuildData :=
  match assocGet st.elemById f.outbound, assocGet st.elemById f.inbound with
  | some src, some dst =>
    if flowKeyOf f ∈ st.seen then st
    else
      let st :=
        { st with
          seen := st.seen ++ [flowKeyOf f],
          rels := st.rels ++
            [⟨src, dst, (if f.name = "" then f.objet else f.name), f.protocol⟩] }
      addFlowTags src dst st (splitMulti f.businessProcess)
  | _, _ => st

/-- Builder lines 119-122, inner loop: copy each `proc:*` tag of a container
(tag list `ts`) to the Group `gi` when absent. -/
def copyProcTags (gi : Nat) (st : BuildData) (ts : List String) : BuildData :=
  ts.foldl (fun st tag =>
    if strStarts tag "proc:" = true ∧ tag ∉ st.tags (.group gi) then
      updTags st (.group gi) (st.tags (.group gi) ++ [tag])
    else st) st

/-- One `container_parent` entry of the propagation loop. -/
def propStep (st : BuildData) (ci : Nat) : BuildData :=
  match st.containers.get? ci with
  | some c => copyProcTags c.parent st (st.tags (.cont ci))
  | none => st

/-- Builder lines 119-122: propagate `proc:*` tags from every container to
its parent Group (containers in creation order). -/
def propagateTags (st : BuildData) : BuildData :=
  (List.range st.containers.length).foldl propStep st

/-- Builder lines 134-139: containers included in a process view — for each
group in `groups_by_id.values()`, its containers carrying `tag`, in creation
order. -/
def deriveIncludes (st : BuildData) (tag : String) : List Nat :=
  (assocValues st.groupsById).foldr (fun gi acc =>
    ((List.range st.containers.length).filter (fun ci =>
      match st.containers.get? ci with
      | some c => c.parent == gi && decide (tag ∈ st.tags (.cont ci))
      | none => false)) ++ acc) []

/-- The view built for one BusinessProcess row with non-blank id. -/
def mkViewOf (st : BuildData) (bp : ProcRow) : ViewS :=
  let pid := trimStr bp.id
  let pname := if trimStr bp.name = "" then pid else trimStr bp.name
  ⟨"Proc" ++ camel pname, pname ++ " (process view)",
    deriveIncludes st ("proc:" ++ lowerStr pid)⟩

/-- Builder lines 125-139: one view per BusinessProcess row, skipping rows
whose stripped id is empty. -/
def addViews (st : BuildData) (procs : List ProcRow) : BuildData :=
  procs.foldl (fun st bp =>
    { st with
      views := st.views ++
        (if trimStr bp.id = "" then [] else [mkViewOf st bp]) }) st

/-- Empty workspace state. -/
def initState : BuildData :=
  ⟨[], [], [], [], [], [], [], [], fun _ => [], []⟩

/-- Phases 1-2 of `build_workspace`: Groups then Containers. -/
def buildNodes (apps : List AppRow) : BuildData :=
  let st := (apps.filter (fun r => r.application == "#")).foldl addAppGroup initState
  (apps.filter (fun r => r.component == "#")).foldl addContainer st

/-- Phases 1-4: nodes, relationships with flow tags, tag propagation. -/
def buildGraph (apps : List AppRow) (flows : List FlowRow) : BuildData :=
  propagateTags (flows.foldl processFlow (buildNodes apps))

/-- builder.py `build_workspace` (the `base_sys` "Process Views" system and
the style table carry no graph content and are omitted). -/
def buildWorkspace (apps : List AppRow) (flows : List FlowRow)
    (procs : List ProcRow) : BuildData :=
  addViews (buildGraph apps flows) procs

/-! ## loader.py `validate` and the CLI pipeline -/

/-- One sheet as read by `loader._read`: column list plus rows as
column-name/value association lists (cells stripped, NA filled with `""`). -/
structure RawTable where
  columns : List String
  rows : List (List (String × String))
deriving DecidableEq, Repr

/-- Cell access (a required column always exists after validation; pandas
`row.get(col, default)` yields `""` for a blank cell). -/
def cell (r : List (String × String)) (c : String) : String :=
  ((r.find? (fun p => p.1 == c)).map (·.2)).getD ""

def REQUIRED_APP : List String :=
  ["ID", "Name", "Application", "Component", "ParentAppID", "Status", "Organisation"]

def REQUIRED_FLOW : List String :=
  ["ID", "Name", "Outbound", "Inbound", "Objet", "Protocol", "Format", "Tags",
   "BusinessProcess"]

/-- The `ValueError`s raised by loader.py `validate`, in raise order. -/
inductive ValidationError where
  | appsMissingColumns (cols : List String)
  | flowsMissingColumns (cols : List String)
  | invalidParentRows (rowIdx : List Nat)
  | unknownIdRows (col : String) (rowIdx : List Nat)
deriving DecidableEq, Repr

/-- Loader line 44: indices of Applications rows with `Component == "#"`
whose `ParentAppID` is not in the Applications ID set. -/
def badParentRows (apps : RawTable) : List Nat :=
  let ids := apps.rows.map (fun r => cell r "ID")
  (List.range apps.rows.length).filter (fun i =>
    match apps.rows.get? i with
    | some r => cell r "Component" == "#" && !(ids.contains (cell r "ParentAppID"))
    | none => false)

/-- Loader lines 48-51: indices of Flows rows whose `col` cell is not in the
Applications ID set. -/
def badEndpointRows (flows : RawTable) (ids : List String) (col : String) : List Nat :=
  (List.range flows.rows.length).filter (fun i =>
    match flows.rows.get? i with
    | some r => !(ids.contains (cell r col))
    | none => false)

/-- loader.py `validate`: each check raises on its own, in order. -/
def validate (apps flows : RawTable) : Except ValidationError Unit :=
  let mA := REQUIRED_APP.filter (fun c => !(apps.columns.contains c))
  if mA ≠ [] then .error (.appsMissingColumns mA)
  else
    let mF := REQUIRED_FLOW.filter (fun c => !(flows.columns.contains c))
    if mF ≠ [] then .error (.flowsMissingColumns mF)
    else
      let bp := badParentRows apps
      if bp ≠ [] then .error (.invalidParentRows bp)
      else
        let ids := apps.rows.map (fun r => cell r "ID")
        let bo := badEndpointRows flows ids "Outbound"
        if bo ≠ [] then .error (.unknownIdRows "Outbound" bo)
        else
          let bi := badEndpointRows flows ids "Inbound"
          if bi ≠ [] then .error (.unknownIdRows "Inbound" bi)
          else .ok ()

/-- Typed view of an Applications row (`load_excel` lowercases `Status`). -/
def toAppRow (r : List (String × String)) : AppRow :=
  ⟨cell r "ID", cell r "Name", cell r "Application", cell r "Component",
   cell r "ParentAppID", lowerStr (cell r "Status"), cell r "Organisation",
   cell r "Description"⟩

def toFlowRow (r : List (String × String)) : FlowRow :=
  ⟨cell r "ID", cell r "Name", cell r "Outbound", cell r "Inbound",
   cell r "Objet", cell r "Protocol", cell r "Format", cell r "Tags",
   cell r "BusinessProcess"⟩

def toProcRow (r : List (String × String)) : ProcRow :=
  ⟨cell r "ID", cell r "Name"⟩

/-- cli.py `main`: `validate(apps, flows)` then `build_workspace(...)`;
a raised `ValueError` aborts before any graph is built. -/
def pipeline (apps flows procs : RawTable) : Except ValidationError BuildData :=
  match validate apps flows with
  | .error e => .error e
  | .ok _ =>
    .ok (buildWorkspace (apps.rows.map toAppRow) (flows.rows.map toFlowRow)
          (procs.rows.map toProcRow))

/-! ## Specification-side definitions
For the refinement-style claims about relationship deduplication, a second
definition spelled from the words of the spec: keep, per identity key, the first
resolvable Flow row. -/

/-- Spec: "first occurrence wins" — the Flow rows that survive endpoint
resolution and key deduplication, each with its resolved endpoints. -/
def firstKept (eid : List (String × NodeRef)) (seenKeys : List FlowKey) :
    List FlowRow → List (NodeRef × NodeRef × FlowRow)
  | [] => []
  | f :: fs =>
    match assocGet eid f.outbound, assocGet eid f.inbound with
    | some s, some d =>
      if flowKeyOf f ∈ seenKeys then firstKept eid seenKeys fs
      else (s, d, f) :: firstKept eid (seenKeys ++ [flowKeyOf f]) fs
    | _, _ => firstKept eid seenKeys fs

/-- The relationship built from a kept row (builder line 110-111). -/
def relOfKept (x : NodeRef × NodeRef × FlowRow) : RelEdge :=
  ⟨x.1, x.2.1, (if x.2.2.name = "" then x.2.2.objet else x.2.2.name),
    x.2.2.protocol⟩

/-- The tag contribution of one Flow row to one node: the row resolves, `r`
is one of its endpoints, and `t` is `proc:` applied to one of the row's
business-process tokens. -/
def rowGives (eid : List (String × NodeRef)) (f : FlowRow) (r : NodeRef)
    (t : String) : Prop :=
  ∃ s d, assocGet eid f.outbound = some s ∧ assocGet eid f.inbound = some d ∧
    (r = s ∨ r = d) ∧ ∃ p ∈ splitMulti f.businessProcess, t = "proc:" ++ p

/-- Rows match on every column except `Status` (the hypothesis of claim C9). -/
def agreeExceptStatus (r r' : AppRow) : Prop :=
  r.id = r'.id ∧ r.name = r'.name ∧ r.application = r'.application ∧
  r.component = r'.component ∧ r.parentAppID = r'.parentAppID ∧
  r.organisation = r'.organisation ∧ r.description = r'.description

instance : DecidablePred fun p : AppRow × AppRow => agreeExceptStatus p.1 p.2 :=
  fun p => by unfold agreeExceptStatus; infer_instance

/-- Tag lists equal up to the value of status tags (simulation invariant for
claim C9). -/
def tagsUpToStatus (ts ts' : List String) : Prop :=
  List.Forall₂ (fun a b => a = b ∨
    (strStarts a "status:" = true ∧ strStarts b "status:" = true)) ts ts'

/-! ## Concrete fixtures used by witnesses and counterexamples -/

def exG1 : AppRow := ⟨"g1", "Group One", "#", "", "", "keep", "OrgA", ""⟩
def exG2 : AppRow := ⟨"g2", "Group Two", "#", "", "", "keep", "OrgA", ""⟩
def exC1 : AppRow := ⟨"c1", "Cont One", "", "#", "g1", "add", "", ""⟩
def exC2 : AppRow := ⟨"c2", "Cont Two", "", "#", "g2", "", "", ""⟩
def exApps : List AppRow := [exG1, exG2, exC1, exC2]

/-- Flow c1→c2 carrying process token `a`. -/
def exF1 : FlowRow := ⟨"f1", "n1", "c1", "c2", "obj", "HTTP", "json", "", "a"⟩
/-- Same identity key as `exF1` but a different BusinessProcess cell. -/
def exF1b : FlowRow := ⟨"f9", "n9", "c1", "c2", "obj", "HTTP", "json", "", "b"⟩
/-- A second flow with a distinct identity key. -/
def exF2 : FlowRow := ⟨"f2", "n2", "c2", "c1", "obj2", "FTP", "csv", "", "b"⟩

def exP1 : ProcRow := ⟨"A", "Proc Aa"⟩

/-- Fixture equal to `exApps` except that every Status value is changed. -/
def exApps' : List AppRow :=
  [⟨"g1", "Group One", "#", "", "", "remove", "OrgA", ""⟩,
   ⟨"g2", "Group Two", "#", "", "", "change", "OrgA", ""⟩,
   ⟨"c1", "Cont One", "", "#", "g1", "", "", ""⟩,
   ⟨"c2", "Cont Two", "", "#", "g2", "keep", "", ""⟩]

def rawAppRow (idv namev appv compv parentv statusv orgv : String) :
    List (String × String) :=
  [("ID", idv), ("Name", namev), ("Application", appv), ("Component", compv),
   ("ParentAppID", parentv), ("Status", statusv), ("Organisation", orgv)]

def rawFlowRow (idv namev outv inv objv protov fmtv tagsv bpv : String) :
    List (String × String) :=
  [("ID", idv), ("Name", namev), ("Outbound", outv), ("Inbound", inv),
   ("Objet", objv), ("Protocol", protov), ("Format", fmtv), ("Tags", tagsv),
   ("BusinessProcess", bpv)]

/-- Applications table: one Group row and one Container row whose
`ParentAppID` (`"nope"`) is not an Applications ID. -/
def exRawAppsBadParent : RawTable :=
  ⟨REQUIRED_APP,
   [rawAppRow "g1" "G One" "#" "" "" "keep" "OrgA",
    rawAppRow "c1" "C One" "" "#" "nope" "add" ""]⟩

/-- A well-formed Applications table with one Group row. -/
def exRawAppsOk : RawTable :=
  ⟨REQUIRED_APP, [rawAppRow "g1" "G One" "#" "" "" "keep" "OrgA"]⟩

/-- An empty, well-formed Flows table. -/
def exRawFlowsEmpty : RawTable := ⟨REQUIRED_FLOW, []⟩

/-- Flows table with one row whose Outbound id (`"zz"`) is unknown. -/
def exRawFlowsBadOut : RawTable :=
  ⟨REQUIRED_FLOW, [rawFlowRow "f1" "n" "zz" "g1" "o" "p" "x" "" "a"]⟩

/-- Applications table missing the required column `Name`. -/
def exRawAppsNoName : RawTable :=
  ⟨["ID", "Application", "Component", "ParentAppID", "Status", "Organisation"],
   []⟩

/-- Flows table missing the required column `Format`. -/
def exRawFlowsNoFormat : RawTable :=
  ⟨["ID", "Name", "Outbound", "Inbound", "Objet", "Protocol", "Tags",
    "BusinessProcess"], []⟩

/-- An empty BusinessProcesses table. -/
def exRawProcsEmpty : RawTable := ⟨["ID", "Name"], []⟩

/-- Build states equal in everything except tag lists, which agree up to
status-tag values (the simulation invariant for claim C9; views are derived last
and are not part of it). -/
def buildEquiv (s1 s2 : BuildData) : Prop :=
  s1.orgSystems = s2.orgSystems ∧ s1.groups = s2.groups ∧
  s1.containers = s2.containers ∧ s1.elemById = s2.elemById ∧
  s1.groupsById = s2.groupsById ∧ s1.warnings = s2.warnings ∧
  s1.rels = s2.rels ∧ s1.seen = s2.seen ∧
  ∀ r, tagsUpToStatus (s1.tags r) (s2.tags r)

/-! # Theorems -/

/-! ## Generic fold and field-preservation lemmas -/

theorem foldl_preserves {α σ β : Type _} (f : σ → α → σ) (proj : σ → β)
    (h : ∀ s a, proj (f s a) = proj s) :
    ∀ (l : List α) (s : σ), proj (l.foldl f s) = proj s := by
  intro l
  induction l with
  | nil => intro s; rfl
  | cons a l ih => intro s; rw [List.foldl_cons, ih, h]

@[simp] theorem updTags_orgSystems (st : BuildData) (r : NodeRef) (v : List String) :
    (updTags st r v).orgSystems = st.orgSystems := rfl

@[simp] theorem updTags_groups (st : BuildData) (r : NodeRef) (v : List String) :
    (updTags st r v).groups = st.groups := rfl

@[simp] theorem updTags_containers (st : BuildData) (r : NodeRef) (v : List String) :
    (updTags st r v).containers = st.containers := rfl

@[simp] theorem updTags_elemById (st : BuildData) (r : NodeRef) (v : List String) :
    (updTags st r v).elemById = st.elemById := rfl

@[simp] theorem updTags_groupsById (st : BuildData) (r : NodeRef) (v : List String) :
    (updTags st r v).groupsById = st.groupsById := rfl

@[simp] theorem updTags_warnings (st : BuildData) (r : NodeRef) (v : List String) :
    (updTags st r v).warnings = st.warnings := rfl

@[simp] theorem updTags_rels (st : BuildData) (r : NodeRef) (v : List String) :
    (updTags st r v).rels = st.rels := rfl

@[simp] theorem updTags_seen (st : BuildData) (r : NodeRef) (v : List String) :
    (updTags st r v).seen = st.seen := rfl

@[simp] theorem updTags_views (st : BuildData) (r : NodeRef) (v : List String) :
    (updTags st r v).views = st.views := rfl

@[simp] theorem updTags_tags (st : BuildData) (r : NodeRef) (v : List String)
    (r' : NodeRef) :
    (updTags st r v).tags r' = if r' = r then v else st.tags r' := rfl

@[simp] theorem addProcTag_orgSystems (st : BuildData) (r : NodeRef) (t : String) :
    (addProcTag st r t).orgSystems = st.orgSystems := by
  unfold addProcTag; split <;> rfl

@[simp] theorem addProcTag_groups (st : BuildData) (r : NodeRef) (t : String) :
    (addProcTag st r t).groups = st.groups := by
  unfold addProcTag; split <;> rfl

@[simp] theorem addProcTag_containers (st : BuildData) (r : NodeRef) (t : String) :
    (addProcTag st r t).containers = st.containers := by
  unfold addProcTag; split <;> rfl

@[simp] theorem addProcTag_elemById (st : BuildData) (r : NodeRef) (t : String) :
    (addProcTag st r t).elemById = st.elemById := by
  unfold addProcTag; split <;> rfl

@[simp] theorem addProcTag_groupsById (st : BuildData) (r : NodeRef) (t : String) :
    (addProcTag st r t).groupsById = st.groupsById := by
  unfold addProcTag; split <;> rfl

@[simp] theorem addProcTag_warnings (st : BuildData) (r : NodeRef) (t : String) :
    (addProcTag st r t).warnings = st.warnings := by
  unfold addProcTag; split <;> rfl

@[simp] theorem addProcTag_rels (st : BuildData) (r : NodeRef) (t : String) :
    (addProcTag st r t).rels = st.rels := by
  unfold addProcTag; split <;> rfl

@[simp] theorem addProcTag_seen (st : BuildData) (r : NodeRef) (t : String) :
    (addProcTag st r t).seen = st.seen := by
  unfold addProcTag; split <;> rfl

@[simp] theorem addProcTag_views (st : BuildData) (r : NodeRef) (t : String) :
    (addProcTag st r t).views = st.views := by
  unfold addProcTag; split <;> rfl

@[simp] theorem addFlowTags_orgSystems (src dst : NodeRef) (st : BuildData)
    (toks : List String) : (addFlowTags src dst st toks).orgSystems = st.orgSystems :=
  foldl_preserves _ _ (fun s a => by simp) toks st

@[simp] theorem addFlowTags_groups (src dst : NodeRef) (st : BuildData)
    (toks : List String) : (addFlowTags src dst st toks).groups = st.groups :=
  foldl_preserves _ _ (fun s a => by simp) toks st

@[simp] theorem addFlowTags_containers (src dst : NodeRef) (st : BuildData)
    (toks : List String) : (addFlowTags src dst st toks).containers = st.containers :=
  foldl_preserves _ _ (fun s a => by simp) toks st

@[simp] theorem addFlowTags_elemById (src dst : NodeRef) (st : BuildData)
    (toks : List String) : (addFlowTags src dst st toks).elemById = st.elemById :=
  foldl_preserves _ _ (fun s a => by simp) toks st

@[simp] theorem addFlowTags_groupsById (src dst : NodeRef) (st : BuildData)
    (toks : List String) : (addFlowTags src dst st toks).groupsById = st.groupsById :=
  foldl_preserves _ _ (fun s a => by simp) toks st

@[simp] theorem addFlowTags_warnings (src dst : NodeRef) (st : BuildData)
    (toks : List String) : (addFlowTags src dst st toks).warnings = st.warnings :=
  foldl_preserves _ _ (fun s a => by simp) toks st

@[simp] theorem addFlowTags_rels (src dst : NodeRef) (st : BuildData)
    (toks : List String) : (addFlowTags src dst st toks).rels = st.rels :=
  foldl_preserves _ _ (fun s a => by simp) toks st

@[simp] theorem addFlowTags_seen (src dst : NodeRef) (st : BuildData)
    (toks : List String) : (addFlowTags src dst st toks).seen = st.seen :=
  foldl_preserves _ _ (fun s a => by simp) toks st

@[simp] theorem addFlowTags_views (src dst : NodeRef) (st : BuildData)
    (toks : List String) : (addFlowTags src dst st toks).views = st.views :=
  foldl_preserves _ _ (fun s a => by simp) toks st

@[simp] theorem processFlow_orgSystems (st : BuildData) (f : FlowRow) :
    (processFlow st f).orgSystems = st.orgSystems := by
  unfold processFlow
  split
  · split
    · rfl
    · simp
  · rfl

@[simp] theorem processFlow_groups (st : BuildData) (f : FlowRow) :
    (processFlow st f).groups = st.groups := by
  unfold processFlow
  split
  · split
    · rfl
    · simp
  · rfl

@[simp] theorem processFlow_containers (st : BuildData) (f : FlowRow) :
    (processFlow st f).containers = st.containers := by
  unfold processFlow
  split
  · split
    · rfl
    · simp
  · rfl

@[simp] theorem processFlow_elemById (st : BuildData) (f : FlowRow) :
    (processFlow st f).elemById = st.elemById := by
  unfold processFlow
  split
  · split
    · rfl
    · simp
  · rfl

@[simp] theorem processFlow_groupsById (st : BuildData) (f : FlowRow) :
    (processFlow st f).groupsById = st.groupsById := by
  unfold processFlow
  split
  · split
    · rfl
    · simp
  · rfl

@[simp] theorem processFlow_warnings (st : BuildData) (f : FlowRow) :
    (processFlow st f).warnings = st.warnings := by
  unfold processFlow
  split
  · split
    · rfl
    · simp
  · rfl

@[simp] theorem processFlow_views (st : BuildData) (f : FlowRow) :
    (processFlow st f).views = st.views := by
  unfold processFlow
  split
  · split
    · rfl
    · simp
  · rfl

@[simp] theorem processFlows_orgSystems (flows : List FlowRow) (st : BuildData) :
    (flows.foldl processFlow st).orgSystems = st.orgSystems :=
  foldl_preserves _ _ (fun s a => by simp) flows st

@[simp] theorem processFlows_groups (flows : List FlowRow) (st : BuildData) :
    (flows.foldl processFlow st).groups = st.groups :=
  foldl_preserves _ _ (fun s a => by simp) flows st

@[simp] theorem processFlows_containers (flows : List FlowRow) (st : BuildData) :
    (flows.foldl processFlow st).containers = st.containers :=
  foldl_preserves _ _ (fun s a => by simp) flows st

@[simp] theorem processFlows_elemById (flows : List FlowRow) (st : BuildData) :
    (flows.foldl processFlow st).elemById = st.elemById :=
  foldl_preserves _ _ (fun s a => by simp) flows st

@[simp] theorem processFlows_groupsById (flows : List FlowRow) (st : BuildData) :
    (flows.foldl processFlow st).groupsById = st.groupsById :=
  foldl_preserves _ _ (fun s a => by simp) flows st

@[simp] theorem processFlows_warnings (flows : List FlowRow) (st : BuildData) :
    (flows.foldl processFlow st).warnings = st.warnings :=
  foldl_preserves _ _ (fun s a => by simp) flows st

@[simp] theorem processFlows_views (flows : List FlowRow) (st : BuildData) :
    (flows.foldl processFlow st).views = st.views :=
  foldl_preserves _ _ (fun s a => by simp) flows st

@[simp] theorem copyProcTags_orgSystems (gi : Nat) (st : BuildData) (ts : List String) :
    (copyProcTags gi st ts).orgSystems = st.orgSystems := by
  unfold copyProcTags
  refine foldl_preserves _ _ (fun s a => ?_) ts st
  by_cases h : strStarts a "proc:" = true ∧ a ∉ s.tags (.group gi)
  · simp [h]
  · simp [h]

@[simp] theorem copyProcTags_groups (gi : Nat) (st : BuildData) (ts : List String) :
    (copyProcTags gi st ts).groups = st.groups := by
  unfold copyProcTags
  refine foldl_preserves _ _ (fun s a => ?_) ts st
  by_cases h : strStarts a "proc:" = true ∧ a ∉ s.tags (.group gi)
  · simp [h]
  · simp [h]

@[simp] theorem copyProcTags_containers (gi : Nat) (st : BuildData) (ts : List String) :
    (copyProcTags gi st ts).containers = st.containers := by
  unfold copyProcTags
  refine foldl_preserves _ _ (fun s a => ?_) ts st
  by_cases h : strStarts a "proc:" = true ∧ a ∉ s.tags (.group gi)
  · simp [h]
  · simp [h]

@[simp] theorem copyProcTags_elemById (gi : Nat) (st : BuildData) (ts : List String) :
    (copyProcTags gi st ts).elemById = st.elemById := by
  unfold copyProcTags
  refine foldl_preserves _ _ (fun s a => ?_) ts st
  by_cases h : strStarts a "proc:" = true ∧ a ∉ s.tags (.group gi)
  · simp [h]
  · simp [h]

@[simp] theorem copyProcTags_groupsById (gi : Nat) (st : BuildData) (ts : List String) :
    (copyProcTags gi st ts).groupsById = st.groupsById := by
  unfold copyProcTags
  refine foldl_preserves _ _ (fun s a => ?_) ts st
  by_cases h : strStarts a "proc:" = true ∧ a ∉ s.tags (.group gi)
  · simp [h]
  · simp [h]

@[simp] theorem copyProcTags_warnings (gi : Nat) (st : BuildData) (ts : List String) :
    (copyProcTags gi st ts).warnings = st.warnings := by
  unfold copyProcTags
  refine foldl_preserves _ _ (fun s a => ?_) ts st
  by_cases h : strStarts a "proc:" = true ∧ a ∉ s.tags (.group gi)
  · simp [h]
  · simp [h]

@[simp] theorem copyProcTags_rels (gi : Nat) (st : BuildData) (ts : List String) :
    (copyProcTags gi st ts).rels = st.rels := by
  unfold copyProcTags
  refine foldl_preserves _ _ (fun s a => ?_) ts st
  by_cases h : strStarts a "proc:" = true ∧ a ∉ s.tags (.group gi)
  · simp [h]
  · simp [h]

@[simp] theorem copyProcTags_seen (gi : Nat) (st : BuildData) (ts : List String) :
    (copyProcTags gi st ts).seen = st.seen := by
  unfold copyProcTags
  refine foldl_preserves _ _ (fun s a => ?_) ts st
  by_cases h : strStarts a "proc:" = true ∧ a ∉ s.tags (.group gi)
  · simp [h]
  · simp [h]

@[simp] theorem copyProcTags_views (gi : Nat) (st : BuildData) (ts : List String) :
    (copyProcTags gi st ts).views = st.views := by
  unfold copyProcTags
  refine foldl_preserves _ _ (fun s a => ?_) ts st
  by_cases h : strStarts a "proc:" = true ∧ a ∉ s.tags (.group gi)
  · simp [h]
  · simp [h]

/-- Lemma: `copyProcTags` touches only the tags of Group `gi`. -/
theorem copyProcTags_tags_ne (gi : Nat) (r : NodeRef) (h : r ≠ .group gi) :
    ∀ (ts : List String) (st : BuildData), (copyProcTags gi st ts).tags r = st.tags r := by
  intro ts st
  unfold copyProcTags
  refine foldl_preserves _ (fun s => s.tags r) (fun s a => ?_) ts st
  by_cases hc : strStarts a "proc:" = true ∧ a ∉ s.tags (.group gi)
  · simp [hc, h]
  · simp [hc]

@[simp] theorem propStep_orgSystems (st : BuildData) (ci : Nat) :
    (propStep st ci).orgSystems = st.orgSystems := by
  unfold propStep; cases st.containers.get? ci <;> simp

@[simp] theorem propStep_groups (st : BuildData) (ci : Nat) :
    (propStep st ci).groups = st.groups := by
  unfold propStep; cases st.containers.get? ci <;> simp

@[simp] theorem propStep_containers (st : BuildData) (ci : Nat) :
    (propStep st ci).containers = st.containers := by
  unfold propStep; cases st.containers.get? ci <;> simp

@[simp] theorem propStep_elemById (st : BuildData) (ci : Nat) :
    (propStep st ci).elemById = st.elemById := by
  unfold propStep; cases st.containers.get? ci <;> simp

@[simp] theorem propStep_groupsById (st : BuildData) (ci : Nat) :
    (propStep st ci).groupsById = st.groupsById := by
  unfold propStep; cases st.containers.get? ci <;> simp

@[simp] theorem propStep_warnings (st : BuildData) (ci : Nat) :
    (propStep st ci).warnings = st.warnings := by
  unfold propStep; cases st.containers.get? ci <;> simp

@[simp] theorem propStep_rels (st : BuildData) (ci : Nat) :
    (propStep st ci).rels = st.rels := by
  unfold propStep; cases st.containers.get? ci <;> simp

@[simp] theorem propStep_seen (st : BuildData) (ci : Nat) :
    (propStep st ci).seen = st.seen := by
  unfold propStep; cases st.containers.get? ci <;> simp

@[simp] theorem propStep_views (st : BuildData) (ci : Nat) :
    (propStep st ci).views = st.views := by
  unfold propStep; cases st.containers.get? ci <;> simp

/-- Lemma: `propStep` never changes the tags of a container. -/
theorem propStep_tags_cont (st : BuildData) (ci j : Nat) :
    (propStep st ci).tags (.cont j) = st.tags (.cont j) := by
  unfold propStep
  cases st.containers.get? ci with
  | none => rfl
  | some c => exact copyProcTags_tags_ne c.parent (.cont j) (by simp) _ st

@[simp] theorem propagateTags_orgSystems (st : BuildData) :
    (propagateTags st).orgSystems = st.orgSystems :=
  foldl_preserves _ _ (fun s a => by simp) _ st

@[simp] theorem propagateTags_groups (st : BuildData) :
    (propagateTags st).groups = st.groups :=
  foldl_preserves _ _ (fun s a => by simp) _ st

@[simp] theorem propagateTags_containers (st : BuildData) :
    (propagateTags st).containers = st.containers :=
  foldl_preserves _ _ (fun s a => by simp) _ st

@[simp] theorem propagateTags_elemById (st : BuildData) :
    (propagateTags st).elemById = st.elemById :=
  foldl_preserves _ _ (fun s a => by simp) _ st

@[simp] theorem propagateTags_groupsById (st : BuildData) :
    (propagateTags st).groupsById = st.groupsById :=
  foldl_preserves _ _ (fun s a => by simp) _ st

@[simp] theorem propagateTags_warnings (st : BuildData) :
    (propagateTags st).warnings = st.warnings :=
  foldl_preserves _ _ (fun s a => by simp) _ st

@[simp] theorem propagateTags_rels (st : BuildData) :
    (propagateTags st).rels = st.rels :=
  foldl_preserves _ _ (fun s a => by simp) _ st

@[simp] theorem propagateTags_seen (st : BuildData) :
    (propagateTags st).seen = st.seen :=
  foldl_preserves _ _ (fun s a => by simp) _ st

@[simp] theorem propagateTags_views (st : BuildData) :
    (propagateTags st).views = st.views :=
  foldl_preserves _ _ (fun s a => by simp) _ st

/-- Lemma: `propagateTags` never changes the tags of a container. -/
@[simp] theorem propagateTags_tags_cont (st : BuildData) (j : Nat) :
    (propagateTags st).tags (.cont j) = st.tags (.cont j) :=
  foldl_preserves _ (fun s => s.tags (.cont j)) (fun s a => propStep_tags_cont s a j) _ st

@[simp] theorem addViews_orgSystems (st : BuildData) (procs : List ProcRow) :
    (addViews st procs).orgSystems = st.orgSystems := by
  unfold addViews
  exact foldl_preserves
    (fun st bp =>
      { st with views := st.views ++ (if trimStr bp.id = "" then [] else [mkViewOf st bp]) })
    (fun s => s.orgSystems) (fun s a => rfl) procs st

@[simp] theorem addViews_groups (st : BuildData) (procs : List ProcRow) :
    (addViews st procs).groups = st.groups := by
  unfold addViews
  exact foldl_preserves
    (fun st bp =>
      { st with views := st.views ++ (if trimStr bp.id = "" then [] else [mkViewOf st bp]) })
    (fun s => s.groups) (fun s a => rfl) procs st

@[simp] theorem addViews_containers (st : BuildData) (procs : List ProcRow) :
    (addViews st procs).containers = st.containers := by
  unfold addViews
  exact foldl_preserves
    (fun st bp =>
      { st with views := st.views ++ (if trimStr bp.id = "" then [] else [mkViewOf st bp]) })
    (fun s => s.containers) (fun s a => rfl) procs st

@[simp] theorem addViews_elemById (st : BuildData) (procs : List ProcRow) :
    (addViews st procs).elemById = st.elemById := by
  unfold addViews
  exact foldl_preserves
    (fun st bp =>
      { st with views := st.views ++ (if trimStr bp.id = "" then [] else [mkViewOf st bp]) })
    (fun s => s.elemById) (fun s a => rfl) procs st

@[simp] theorem addViews_groupsById (st : BuildData) (procs : List ProcRow) :
    (addViews st procs).groupsById = st.groupsById := by
  unfold addViews
  exact foldl_preserves
    (fun st bp =>
      { st with views := st.views ++ (if trimStr bp.id = "" then [] else [mkViewOf st bp]) })
    (fun s => s.groupsById) (fun s a => rfl) procs st

@[simp] theorem addViews_warnings (st : BuildData) (procs : List ProcRow) :
    (addViews st procs).warnings = st.warnings := by
  unfold addViews
  exact foldl_preserves
    (fun st bp =>
      { st with views := st.views ++ (if trimStr bp.id = "" then [] else [mkViewOf st bp]) })
    (fun s => s.warnings) (fun s a => rfl) procs st

@[simp] theorem addViews_rels (st : BuildData) (procs : List ProcRow) :
    (addViews st procs).rels = st.rels := by
  unfold addViews
  exact foldl_preserves
    (fun st bp =>
      { st with views := st.views ++ (if trimStr bp.id = "" then [] else [mkViewOf st bp]) })
    (fun s => s.rels) (fun s a => rfl) procs st

@[simp] theorem addViews_seen (st : BuildData) (procs : List ProcRow) :
    (addViews st procs).seen = st.seen := by
  unfold addViews
  exact foldl_preserves
    (fun st bp =>
      { st with views := st.views ++ (if trimStr bp.id = "" then [] else [mkViewOf st bp]) })
    (fun s => s.seen) (fun s a => rfl) procs st

@[simp] theorem addViews_tags (st : BuildData) (procs : List ProcRow) :
    (addViews st procs).tags = st.tags := by
  unfold addViews
  exact foldl_preserves
    (fun st bp =>
      { st with views := st.views ++ (if trimStr bp.id = "" then [] else [mkViewOf st bp]) })
    (fun s => s.tags) (fun s a => rfl) procs st

/-! ## String-prefix facts -/

theorem listIsPre_append_self : ∀ (l m : List Char), listIsPre l (l ++ m) = true := by
  intro l m
  induction l with
  | nil => rfl
  | cons c cs ih => simp [listIsPre, ih]

theorem strStarts_append_self (p x : String) : strStarts (p ++ x) p = true := by
  unfold strStarts
  rw [show (p ++ x).data = p.data ++ x.data from rfl]
  exact listIsPre_append_self _ _

theorem listIsPre_proc_status (l : List Char)
    (h : listIsPre "proc:".data l = true) : listIsPre "status:".data l = false := by
  cases l with
  | nil => exact absurd h (by decide)
  | cons c cs =>
    have h1 : 'p' = c := by
      rw [show "proc:".data = ['p', 'r', 'o', 'c', ':'] from rfl] at h
      simp only [listIsPre, Bool.and_eq_true, beq_iff_eq] at h
      exact h.1
    rw [show "status:".data = ['s', 't', 'a', 't', 'u', 's', ':'] from rfl, ← h1]
    rfl

theorem listIsPre_status_proc (l : List Char)
    (h : listIsPre "status:".data l = true) : listIsPre "proc:".data l = false := by
  cases l with
  | nil => exact absurd h (by decide)
  | cons c cs =>
    have h1 : 's' = c := by
      rw [show "status:".data = ['s', 't', 'a', 't', 'u', 's', ':'] from rfl] at h
      simp only [listIsPre, Bool.and_eq_true, beq_iff_eq] at h
      exact h.1
    rw [show "proc:".data = ['p', 'r', 'o', 'c', ':'] from rfl, ← h1]
    rfl

theorem proc_not_status {t : String} (h : strStarts t "proc:" = true) :
    strStarts t "status:" = false := by
  unfold strStarts at h ⊢
  exact listIsPre_proc_status _ h

theorem status_not_proc {t : String} (h : strStarts t "status:" = true) :
    strStarts t "proc:" = false := by
  unfold strStarts at h ⊢
  exact listIsPre_status_proc _ h

theorem statusTag_starts (r : AppRow) : strStarts (statusTagOf r) "status:" = true := by
  unfold statusTagOf
  exact strStarts_append_self _ _

theorem procTag_starts (p : String) : strStarts ("proc:" ++ p) "proc:" = true :=
  strStarts_append_self _ _

/-! ## Tag-membership characterizations -/

theorem mem_addProcTag_tags (st : BuildData) (r₀ : NodeRef) (tag : String)
    (r : NodeRef) (t : String) :
    t ∈ (addProcTag st r₀ tag).tags r ↔ t ∈ st.tags r ∨ (r = r₀ ∧ t = tag) := by
  unfold addProcTag
  split
  · rename_i h
    constructor
    · exact Or.inl
    · rintro (h' | ⟨rfl, rfl⟩)
      · exact h'
      · exact h
  · rename_i h
    simp only [updTags_tags]
    by_cases hr : r = r₀
    · subst hr
      rw [if_pos rfl]
      simp [List.mem_append]
    · rw [if_neg hr]
      simp [hr]

theorem mem_addFlowTags_tags (src dst : NodeRef) :
    ∀ (toks : List String) (st : BuildData) (r : NodeRef) (t : String),
      t ∈ (addFlowTags src dst st toks).tags r ↔
        t ∈ st.tags r ∨ ((r = src ∨ r = dst) ∧ ∃ p ∈ toks, t = "proc:" ++ p) := by
  intro toks
  induction toks with
  | nil => intro st r t; simp [addFlowTags]
  | cons p ps ih =>
    intro st r t
    have hstep : addFlowTags src dst st (p :: ps) =
        addFlowTags src dst
          (addProcTag (addProcTag st src ("proc:" ++ p)) dst ("proc:" ++ p)) ps := rfl
    rw [hstep, ih, mem_addProcTag_tags, mem_addProcTag_tags,
      show (∃ p' ∈ p :: ps, t = "proc:" ++ p') ↔
        (t = "proc:" ++ p ∨ ∃ p' ∈ ps, t = "proc:" ++ p') from by
          simp [List.mem_cons, or_and_right, exists_or]]
    tauto

theorem mem_copyProcTags (gi : Nat) :
    ∀ (ts : List String) (st : BuildData) (t : String),
      t ∈ (copyProcTags gi st ts).tags (.group gi) ↔
        t ∈ st.tags (.group gi) ∨ (strStarts t "proc:" = true ∧ t ∈ ts) := by
  intro ts
  induction ts with
  | nil => intro st t; simp [copyProcTags]
  | cons a ts ih =>
    intro st t
    have hstep : copyProcTags gi st (a :: ts) =
        copyProcTags gi
          (if strStarts a "proc:" = true ∧ a ∉ st.tags (.group gi)
           then updTags st (.group gi) (st.tags (.group gi) ++ [a]) else st) ts := rfl
    rw [hstep]
    by_cases h : strStarts a "proc:" = true ∧ a ∉ st.tags (.group gi)
    · rw [if_pos h, ih]
      rw [show (updTags st (.group gi) (st.tags (.group gi) ++ [a])).tags (.group gi)
          = st.tags (.group gi) ++ [a] from by rw [updTags_tags, if_pos rfl]]
      simp only [List.mem_append, List.mem_cons, List.not_mem_nil, or_false]
      constructor
      · rintro ((ht | rfl) | ⟨hp, hts⟩)
        · exact Or.inl ht
        · exact Or.inr ⟨h.1, Or.inl rfl⟩
        · exact Or.inr ⟨hp, Or.inr hts⟩
      · rintro (ht | ⟨hp, rfl | hts⟩)
        · exact Or.inl (Or.inl ht)
        · exact Or.inl (Or.inr rfl)
        · exact Or.inr ⟨hp, hts⟩
    · rw [if_neg h, ih]
      simp only [List.mem_cons]
      constructor
      · rintro (ht | ⟨hp, hts⟩)
        · exact Or.inl ht
        · exact Or.inr ⟨hp, Or.inr hts⟩
      · rintro (ht | ⟨hp, rfl | hts⟩)
        · exact Or.inl ht
        · rcases not_and_or.mp h with h1 | h2
          · exact absurd hp h1
          · exact Or.inl (not_not.mp h2)
        · exact Or.inr ⟨hp, hts⟩

theorem mem_propStep_group (st : BuildData) (ci : Nat) (g : Nat) (t : String) :
    t ∈ (propStep st ci).tags (.group g) ↔
      t ∈ st.tags (.group g) ∨ (strStarts t "proc:" = true ∧
        ∃ c, st.containers.get? ci = some c ∧ c.parent = g ∧
          t ∈ st.tags (.cont ci)) := by
  unfold propStep
  cases hc : st.containers.get? ci with
  | none => simp
  | some c =>
    by_cases hg : c.parent = g
    · subst hg
      rw [mem_copyProcTags]
      simp
    · rw [copyProcTags_tags_ne c.parent (.group g)
        (by intro he; exact hg (NodeRef.group.inj he).symm) _ st]
      simp [hg]

theorem mem_propFold (g : Nat) (t : String) :
    ∀ (L : List Nat) (st : BuildData),
      t ∈ (L.foldl propStep st).tags (.group g) ↔
        t ∈ st.tags (.group g) ∨ (strStarts t "proc:" = true ∧
          ∃ ci ∈ L, ∃ c, st.containers.get? ci = some c ∧ c.parent = g ∧
            t ∈ st.tags (.cont ci)) := by
  intro L
  induction L with
  | nil => intro st; simp
  | cons ci L ih =>
    intro st
    rw [List.foldl_cons, ih, mem_propStep_group]
    simp only [propStep_containers, propStep_tags_cont]
    rw [show (∃ cj ∈ ci :: L, ∃ c, st.containers.get? cj = some c ∧ c.parent = g ∧
          t ∈ st.tags (.cont cj)) ↔
        ((∃ c, st.containers.get? ci = some c ∧ c.parent = g ∧
            t ∈ st.tags (.cont ci)) ∨
          ∃ cj ∈ L, ∃ c, st.containers.get? cj = some c ∧ c.parent = g ∧
            t ∈ st.tags (.cont cj)) from by
      simp [List.mem_cons, or_and_right, exists_or, exists_eq_left]]
    constructor
    · rintro ((h | ⟨hp, hP⟩) | ⟨hp, hQ⟩)
      · exact Or.inl h
      · exact Or.inr ⟨hp, Or.inl hP⟩
      · exact Or.inr ⟨hp, Or.inr hQ⟩
    · rintro (h | ⟨hp, hP | hQ⟩)
      · exact Or.inl (Or.inl h)
      · exact Or.inl (Or.inr ⟨hp, hP⟩)
      · exact Or.inr ⟨hp, hQ⟩

theorem mem_propagateTags_group (st : BuildData) (g : Nat) (t : String) :
    t ∈ (propagateTags st).tags (.group g) ↔
      t ∈ st.tags (.group g) ∨ (strStarts t "proc:" = true ∧
        ∃ ci c, st.containers.get? ci = some c ∧ c.parent = g ∧
          t ∈ st.tags (.cont ci)) := by
  unfold propagateTags
  rw [mem_propFold]
  constructor
  · rintro (h | ⟨hp, ci, hmem, c, hc, hpar, ht⟩)
    · exact Or.inl h
    · exact Or.inr ⟨hp, ci, c, hc, hpar, ht⟩
  · rintro (h | ⟨hp, ci, c, hc, hpar, ht⟩)
    · exact Or.inl h
    · exact Or.inr ⟨hp, ci,
        List.mem_range.mpr (List.get?_eq_some.mp hc).1, c, hc, hpar, ht⟩

theorem copyProcTags_eq_self (gi : Nat) :
    ∀ (ts : List String) (st : BuildData),
      (∀ t ∈ ts, strStarts t "proc:" = true → t ∈ st.tags (.group gi)) →
      copyProcTags gi st ts = st := by
  intro ts
  induction ts with
  | nil => intro st _; rfl
  | cons a ts ih =>
    intro st h
    have hcond : ¬(strStarts a "proc:" = true ∧ a ∉ st.tags (.group gi)) := by
      rintro ⟨hp, hm⟩
      exact hm (h a (List.mem_cons_self a ts) hp)
    have hstep : copyProcTags gi st (a :: ts) =
        copyProcTags gi
          (if strStarts a "proc:" = true ∧ a ∉ st.tags (.group gi)
           then updTags st (.group gi) (st.tags (.group gi) ++ [a]) else st) ts := rfl
    rw [hstep, if_neg hcond]
    exact ih st (fun t ht hp => h t (List.mem_cons_of_mem _ ht) hp)

theorem propStep_eq_self (st : BuildData) (ci : Nat)
    (h : ∀ c, st.containers.get? ci = some c →
      ∀ t ∈ st.tags (.cont ci), strStarts t "proc:" = true →
        t ∈ st.tags (.group c.parent)) :
    propStep st ci = st := by
  unfold propStep
  cases hc : st.containers.get? ci with
  | none => rfl
  | some c => exact copyProcTags_eq_self c.parent _ st (h c hc)

theorem propagateFold_eq_self :
    ∀ (L : List Nat) (st : BuildData),
      (∀ ci c, st.containers.get? ci = some c →
        ∀ t ∈ st.tags (.cont ci), strStarts t "proc:" = true →
          t ∈ st.tags (.group c.parent)) →
      L.foldl propStep st = st := by
  intro L
  induction L with
  | nil => intro st _; rfl
  | cons ci L ih =>
    intro st h
    rw [List.foldl_cons, propStep_eq_self st ci (fun c hc => h ci c hc), ih st h]

theorem propagateTags_eq_self (st : BuildData)
    (h : ∀ ci c, st.containers.get? ci = some c →
      ∀ t ∈ st.tags (.cont ci), strStarts t "proc:" = true →
        t ∈ st.tags (.group c.parent)) :
    propagateTags st = st :=
  propagateFold_eq_self _ st h

/-- All `proc:*` tags of a container sit on its parent Group after
propagation. -/
theorem propagateTags_parent_closed (st : BuildData) (ci : Nat) (c : ContInfo)
    (hc : (propagateTags st).containers.get? ci = some c) (t : String)
    (ht : t ∈ (propagateTags st).tags (.cont ci))
    (hp : strStarts t "proc:" = true) :
    t ∈ (propagateTags st).tags (.group c.parent) := by
  rw [propagateTags_containers] at hc
  rw [propagateTags_tags_cont] at ht
  rw [mem_propagateTags_group]
  exact Or.inr ⟨hp, ci, c, hc, rfl, ht⟩

theorem propagateTags_idem (st : BuildData) :
    propagateTags (propagateTags st) = propagateTags st :=
  propagateTags_eq_self _ (fun ci c hc t ht hp =>
    propagateTags_parent_closed st ci c hc t ht hp)

/-! ## Flow-phase step lemmas and characterizations -/

theorem processFlow_unresolved (st : BuildData) (f : FlowRow)
    (h : assocGet st.elemById f.outbound = none ∨
      assocGet st.elemById f.inbound = none) :
    processFlow st f = st := by
  unfold processFlow
  rcases h with h | h
  · rw [h]
  · rw [h]; cases assocGet st.elemById f.outbound <;> rfl

theorem processFlow_resolved_seen (st : BuildData) (f : FlowRow) (src dst : NodeRef)
    (h1 : assocGet st.elemById f.outbound = some src)
    (h2 : assocGet st.elemById f.inbound = some dst)
    (hk : flowKeyOf f ∈ st.seen) :
    processFlow st f = st := by
  unfold processFlow
  simp only [h1, h2]
  rw [if_pos hk]

theorem processFlow_resolved_new (st : BuildData) (f : FlowRow) (src dst : NodeRef)
    (h1 : assocGet st.elemById f.outbound = some src)
    (h2 : assocGet st.elemById f.inbound = some dst)
    (hk : flowKeyOf f ∉ st.seen) :
    processFlow st f =
      addFlowTags src dst
        { st with
          seen := st.seen ++ [flowKeyOf f],
          rels := st.rels ++
            [⟨src, dst, (if f.name = "" then f.objet else f.name), f.protocol⟩] }
        (splitMulti f.businessProcess) := by
  unfold processFlow
  simp only [h1, h2]
  rw [if_neg hk]

theorem processFlow_seen_cases (st : BuildData) (f : FlowRow) :
    (processFlow st f).seen = st.seen ∨
    (processFlow st f).seen = st.seen ++ [flowKeyOf f] := by
  rcases h1 : assocGet st.elemById f.outbound with _ | src
  · rw [processFlow_unresolved st f (Or.inl h1)]; left; rfl
  · rcases h2 : assocGet st.elemById f.inbound with _ | dst
    · rw [processFlow_unresolved st f (Or.inr h2)]; left; rfl
    · by_cases hk : flowKeyOf f ∈ st.seen
      · rw [processFlow_resolved_seen st f src dst h1 h2 hk]; left; rfl
      · rw [processFlow_resolved_new st f src dst h1 h2 hk]; right
        rw [addFlowTags_seen]

theorem mem_processFlow_tags (st : BuildData) (f : FlowRow) (r : NodeRef)
    (t : String) (hk : flowKeyOf f ∉ st.seen) :
    t ∈ (processFlow st f).tags r ↔
      t ∈ st.tags r ∨ rowGives st.elemById f r t := by
  rcases h1 : assocGet st.elemById f.outbound with _ | src
  · rw [processFlow_unresolved st f (Or.inl h1)]
    unfold rowGives
    constructor
    · exact Or.inl
    · rintro (h | ⟨s, d, hs, -, -, -⟩)
      · exact h
      · rw [h1] at hs; cases hs
  · rcases h2 : assocGet st.elemById f.inbound with _ | dst
    · rw [processFlow_unresolved st f (Or.inr h2)]
      unfold rowGives
      constructor
      · exact Or.inl
      · rintro (h | ⟨s, d, -, hd, -, -⟩)
        · exact h
        · rw [h2] at hd; cases hd
    · rw [processFlow_resolved_new st f src dst h1 h2 hk, mem_addFlowTags_tags]
      unfold rowGives
      constructor
      · rintro (h | ⟨hrd, p, hp, ht⟩)
        · exact Or.inl h
        · exact Or.inr ⟨src, dst, h1, h2, hrd, p, hp, ht⟩
      · rintro (h | ⟨s, d, hs, hd, hrd, p, hp, ht⟩)
        · exact Or.inl h
        · have hs' : src = s := Option.some.inj (h1.symm.trans hs)
          have hd' : dst = d := Option.some.inj (h2.symm.trans hd)
          subst hs'
          subst hd'
          exact Or.inr ⟨hrd, p, hp, ht⟩

theorem mem_processFlows :
    ∀ (flows : List FlowRow) (st : BuildData),
      (flows.map flowKeyOf).Nodup →
      (∀ f ∈ flows, flowKeyOf f ∉ st.seen) →
      ∀ (r : NodeRef) (t : String),
        t ∈ (flows.foldl processFlow st).tags r ↔
          t ∈ st.tags r ∨ ∃ f ∈ flows, rowGives st.elemById f r t := by
  intro flows
  induction flows with
  | nil => intro st _ _ r t; simp
  | cons f fs ih =>
    intro st hnd hseen r t
    rw [List.map_cons, List.nodup_cons] at hnd
    have hk : flowKeyOf f ∉ st.seen := hseen f (List.mem_cons_self f fs)
    have hseen' : ∀ f' ∈ fs, flowKeyOf f' ∉ (processFlow st f).seen := by
      intro f' hf'
      have hne : flowKeyOf f' ≠ flowKeyOf f := by
        intro he
        exact hnd.1 (he ▸ List.mem_map_of_mem flowKeyOf hf')
      rcases processFlow_seen_cases st f with hs | hs <;> rw [hs]
      · exact hseen f' (List.mem_cons_of_mem f hf')
      · simp only [List.mem_append, List.mem_cons, List.not_mem_nil, or_false]
        rintro (h | h)
        · exact hseen f' (List.mem_cons_of_mem f hf') h
        · exact hne h
    rw [List.foldl_cons, ih (processFlow st f) hnd.2 hseen' r t,
      processFlow_elemById, mem_processFlow_tags st f r t hk,
      List.exists_mem_cons_iff]
    tauto

theorem firstKept_cons (eid : List (String × NodeRef)) (seenKeys : List FlowKey)
    (f : FlowRow) (fs : List FlowRow) :
    firstKept eid seenKeys (f :: fs) =
      match assocGet eid f.outbound, assocGet eid f.inbound with
      | some s, some d =>
        if flowKeyOf f ∈ seenKeys then firstKept eid seenKeys fs
        else (s, d, f) :: firstKept eid (seenKeys ++ [flowKeyOf f]) fs
      | _, _ => firstKept eid seenKeys fs := by
  rw [firstKept]

theorem firstKept_unresolved (eid : List (String × NodeRef)) (seenKeys : List FlowKey)
    (f : FlowRow) (fs : List FlowRow)
    (h : assocGet eid f.outbound = none ∨ assocGet eid f.inbound = none) :
    firstKept eid seenKeys (f :: fs) = firstKept eid seenKeys fs := by
  rw [firstKept_cons]
  rcases h with h | h
  · rw [h]
  · rw [h]; cases assocGet eid f.outbound <;> rfl

theorem firstKept_seen (eid : List (String × NodeRef)) (seenKeys : List FlowKey)
    (f : FlowRow) (fs : List FlowRow) (src dst : NodeRef)
    (h1 : assocGet eid f.outbound = some src)
    (h2 : assocGet eid f.inbound = some dst)
    (hk : flowKeyOf f ∈ seenKeys) :
    firstKept eid seenKeys (f :: fs) = firstKept eid seenKeys fs := by
  rw [firstKept_cons]
  simp only [h1, h2]
  rw [if_pos hk]

theorem firstKept_new (eid : List (String × NodeRef)) (seenKeys : List FlowKey)
    (f : FlowRow) (fs : List FlowRow) (src dst : NodeRef)
    (h1 : assocGet eid f.outbound = some src)
    (h2 : assocGet eid f.inbound = some dst)
    (hk : flowKeyOf f ∉ seenKeys) :
    firstKept eid seenKeys (f :: fs) =
      (src, dst, f) :: firstKept eid (seenKeys ++ [flowKeyOf f]) fs := by
  rw [firstKept_cons]
  simp only [h1, h2]
  rw [if_neg hk]

theorem rels_processFlows :
    ∀ (flows : List FlowRow) (st : BuildData),
      (flows.foldl processFlow st).rels =
        st.rels ++ (firstKept st.elemById st.seen flows).map relOfKept := by
  intro flows
  induction flows with
  | nil => intro st; simp [firstKept]
  | cons f fs ih =>
    intro st
    rw [List.foldl_cons]
    rcases h1 : assocGet st.elemById f.outbound with _ | src
    · rw [processFlow_unresolved st f (Or.inl h1), ih st,
        firstKept_unresolved st.elemById st.seen f fs (Or.inl h1)]
    · rcases h2 : assocGet st.elemById f.inbound with _ | dst
      · rw [processFlow_unresolved st f (Or.inr h2), ih st,
          firstKept_unresolved st.elemById st.seen f fs (Or.inr h2)]
      · by_cases hk : flowKeyOf f ∈ st.seen
        · rw [processFlow_resolved_seen st f src dst h1 h2 hk, ih st,
            firstKept_seen st.elemById st.seen f fs src dst h1 h2 hk]
        · rw [processFlow_resolved_new st f src dst h1 h2 hk, ih,
            firstKept_new st.elemById st.seen f fs src dst h1 h2 hk]
          simp [relOfKept, List.append_assoc]

theorem seen_processFlows :
    ∀ (flows : List FlowRow) (st : BuildData),
      (flows.foldl processFlow st).seen =
        st.seen ++ (firstKept st.elemById st.seen flows).map
          (fun x => flowKeyOf x.2.2) := by
  intro flows
  induction flows with
  | nil => intro st; simp [firstKept]
  | cons f fs ih =>
    intro st
    rw [List.foldl_cons]
    rcases h1 : assocGet st.elemById f.outbound with _ | src
    · rw [processFlow_unresolved st f (Or.inl h1), ih st,
        firstKept_unresolved st.elemById st.seen f fs (Or.inl h1)]
    · rcases h2 : assocGet st.elemById f.inbound with _ | dst
      · rw [processFlow_unresolved st f (Or.inr h2), ih st,
          firstKept_unresolved st.elemById st.seen f fs (Or.inr h2)]
      · by_cases hk : flowKeyOf f ∈ st.seen
        · rw [processFlow_resolved_seen st f src dst h1 h2 hk, ih st,
            firstKept_seen st.elemById st.seen f fs src dst h1 h2 hk]
        · rw [processFlow_resolved_new st f src dst h1 h2 hk, ih,
            firstKept_new st.elemById st.seen f fs src dst h1 h2 hk]
          simp [List.append_assoc]

theorem firstKept_keys_nodup (eid : List (String × NodeRef)) :
    ∀ (flows : List FlowRow) (seenKeys : List FlowKey),
      ((firstKept eid seenKeys flows).map (fun x => flowKeyOf x.2.2)).Nodup ∧
      ∀ k ∈ (firstKept eid seenKeys flows).map (fun x => flowKeyOf x.2.2),
        k ∉ seenKeys := by
  intro flows
  induction flows with
  | nil => intro seenKeys; exact ⟨List.nodup_nil, by simp [firstKept]⟩
  | cons f fs ih =>
    intro seenKeys
    rcases h1 : assocGet eid f.outbound with _ | src
    · rw [firstKept_unresolved eid seenKeys f fs (Or.inl h1)]; exact ih seenKeys
    · rcases h2 : assocGet eid f.inbound with _ | dst
      · rw [firstKept_unresolved eid seenKeys f fs (Or.inr h2)]; exact ih seenKeys
      · by_cases hk : flowKeyOf f ∈ seenKeys
        · rw [firstKept_seen eid seenKeys f fs src dst h1 h2 hk]; exact ih seenKeys
        · rw [firstKept_new eid seenKeys f fs src dst h1 h2 hk]
          obtain ⟨ihn, ihs⟩ := ih (seenKeys ++ [flowKeyOf f])
          rw [List.map_cons]
          constructor
          · rw [List.nodup_cons]
            refine ⟨fun hmem => ?_, ihn⟩
            exact (ihs _ hmem) (by simp)
          · intro k hk'
            rcases List.mem_cons.mp hk' with rfl | hk''
            · exact hk
            · intro hc
              exact (ihs k hk'') (List.mem_append.mpr (Or.inl hc))

theorem firstKept_key_covered (eid : List (String × NodeRef)) :
    ∀ (flows : List FlowRow) (seenKeys : List FlowKey) (f : FlowRow),
      f ∈ flows →
      (∃ src, assocGet eid f.outbound = some src) →
      (∃ dst, assocGet eid f.inbound = some dst) →
      flowKeyOf f ∈ seenKeys ∨
        flowKeyOf f ∈ (firstKept eid seenKeys flows).map (fun x => flowKeyOf x.2.2) := by
  intro flows
  induction flows with
  | nil => intro seenKeys f h; exact absurd h (List.not_mem_nil f)
  | cons g fs ih =>
    intro seenKeys f hf hs hd
    rcases List.mem_cons.mp hf with rfl | hf'
    · obtain ⟨src, h1⟩ := hs
      obtain ⟨dst, h2⟩ := hd
      by_cases hk : flowKeyOf f ∈ seenKeys
      · exact Or.inl hk
      · rw [firstKept_new eid seenKeys f fs src dst h1 h2 hk, List.map_cons]
        exact Or.inr (List.mem_cons_self _ _)
    · rcases h1 : assocGet eid g.outbound with _ | src
      · rw [firstKept_unresolved eid seenKeys g fs (Or.inl h1)]
        exact ih seenKeys f hf' hs hd
      · rcases h2 : assocGet eid g.inbound with _ | dst
        · rw [firstKept_unresolved eid seenKeys g fs (Or.inr h2)]
          exact ih seenKeys f hf' hs hd
        · by_cases hk : flowKeyOf g ∈ seenKeys
          · rw [firstKept_seen eid seenKeys g fs src dst h1 h2 hk]
            exact ih seenKeys f hf' hs hd
          · rw [firstKept_new eid seenKeys g fs src dst h1 h2 hk]
            rcases ih (seenKeys ++ [flowKeyOf g]) f hf' hs hd with h | h
            · rcases List.mem_append.mp h with h' | h'
              · exact Or.inl h'
              · rw [List.map_cons]
                have he : flowKeyOf f = flowKeyOf g := by simpa using h'
                exact Or.inr (by rw [he]; exact List.mem_cons_self _ _)
            · rw [List.map_cons]
              exact Or.inr (List.mem_cons_of_mem _ h)

theorem firstKept_nil_of_covered (eid : List (String × NodeRef)) :
    ∀ (flows : List FlowRow) (seenKeys : List FlowKey),
      (∀ f ∈ flows, ∀ src dst, assocGet eid f.outbound = some src →
        assocGet eid f.inbound = some dst → flowKeyOf f ∈ seenKeys) →
      firstKept eid seenKeys flows = [] := by
  intro flows
  induction flows with
  | nil => intro _ _; rfl
  | cons f fs ih =>
    intro seenKeys h
    rcases h1 : assocGet eid f.outbound with _ | src
    · rw [firstKept_unresolved eid seenKeys f fs (Or.inl h1)]
      exact ih seenKeys (fun f' hf' => h f' (List.mem_cons_of_mem _ hf'))
    · rcases h2 : assocGet eid f.inbound with _ | dst
      · rw [firstKept_unresolved eid seenKeys f fs (Or.inr h2)]
        exact ih seenKeys (fun f' hf' => h f' (List.mem_cons_of_mem _ hf'))
      · have hk : flowKeyOf f ∈ seenKeys := h f (List.mem_cons_self _ _) src dst h1 h2
        rw [firstKept_seen eid seenKeys f fs src dst h1 h2 hk]
        exact ih seenKeys (fun f' hf' => h f' (List.mem_cons_of_mem _ hf'))

/-! ## Node-phase characterizations -/

theorem addAppGroup_groups_char (st : BuildData) (r : AppRow) :
    (addAppGroup st r).groups = st.groups ++ [⟨r.id, r.name, orgNameOf r⟩] := by
  simp only [addAppGroup, updTags_groups]
  split <;> rfl

theorem addAppGroup_orgSystems_char (st : BuildData) (r : AppRow) :
    (addAppGroup st r).orgSystems =
      if orgNameOf r ∈ st.orgSystems then st.orgSystems
      else st.orgSystems ++ [orgNameOf r] := by
  simp only [addAppGroup, updTags_orgSystems]
  split <;> rfl

@[simp] theorem addAppGroup_containers (st : BuildData) (r : AppRow) :
    (addAppGroup st r).containers = st.containers := by
  simp only [addAppGroup, updTags_containers]
  split <;> rfl

@[simp] theorem addAppGroup_warnings (st : BuildData) (r : AppRow) :
    (addAppGroup st r).warnings = st.warnings := by
  simp only [addAppGroup, updTags_warnings]
  split <;> rfl

@[simp] theorem addAppGroup_rels (st : BuildData) (r : AppRow) :
    (addAppGroup st r).rels = st.rels := by
  simp only [addAppGroup, updTags_rels]
  split <;> rfl

@[simp] theorem addAppGroup_seen (st : BuildData) (r : AppRow) :
    (addAppGroup st r).seen = st.seen := by
  simp only [addAppGroup, updTags_seen]
  split <;> rfl

@[simp] theorem addAppGroup_views (st : BuildData) (r : AppRow) :
    (addAppGroup st r).views = st.views := by
  simp only [addAppGroup, updTags_views]
  split <;> rfl

@[simp] theorem addContainer_orgSystems (st : BuildData) (r : AppRow) :
    (addContainer st r).orgSystems = st.orgSystems := by
  unfold addContainer
  cases assocGet st.groupsById r.parentAppID <;> rfl

@[simp] theorem addContainer_groups (st : BuildData) (r : AppRow) :
    (addContainer st r).groups = st.groups := by
  unfold addContainer
  cases assocGet st.groupsById r.parentAppID <;> rfl

@[simp] theorem addContainer_groupsById (st : BuildData) (r : AppRow) :
    (addContainer st r).groupsById = st.groupsById := by
  unfold addContainer
  cases assocGet st.groupsById r.parentAppID <;> rfl

@[simp] theorem addContainer_rels (st : BuildData) (r : AppRow) :
    (addContainer st r).rels = st.rels := by
  unfold addContainer
  cases assocGet st.groupsById r.parentAppID <;> rfl

@[simp] theorem addContainer_seen (st : BuildData) (r : AppRow) :
    (addContainer st r).seen = st.seen := by
  unfold addContainer
  cases assocGet st.groupsById r.parentAppID <;> rfl

@[simp] theorem addContainer_views (st : BuildData) (r : AppRow) :
    (addContainer st r).views = st.views := by
  unfold addContainer
  cases assocGet st.groupsById r.parentAppID <;> rfl

theorem groups_fold_addAppGroup :
    ∀ (rows : List AppRow) (st : BuildData),
      (rows.foldl addAppGroup st).groups =
        st.groups ++ rows.map (fun r => ⟨r.id, r.name, orgNameOf r⟩) := by
  intro rows
  induction rows with
  | nil => intro st; simp
  | cons r rows ih =>
    intro st
    rw [List.foldl_cons, ih, addAppGroup_groups_char]
    simp [List.append_assoc]

theorem orgSystems_nodup_addAppGroup (st : BuildData) (r : AppRow)
    (h : st.orgSystems.Nodup) : (addAppGroup st r).orgSystems.Nodup := by
  rw [addAppGroup_orgSystems_char]
  split
  · exact h
  · rename_i hni
    simp [List.nodup_append, h, hni]

theorem orgSystems_nodup_fold :
    ∀ (rows : List AppRow) (st : BuildData),
      st.orgSystems.Nodup → ((rows.foldl addAppGroup st).orgSystems).Nodup := by
  intro rows
  induction rows with
  | nil => intro st h; exact h
  | cons r rows ih =>
    intro st h
    rw [List.foldl_cons]
    exact ih _ (orgSystems_nodup_addAppGroup st r h)

theorem orgSystems_mono_addAppGroup (st : BuildData) (r : AppRow) :
    ∀ x ∈ st.orgSystems, x ∈ (addAppGroup st r).orgSystems := by
  intro x hx
  rw [addAppGroup_orgSystems_char]
  split
  · exact hx
  · exact List.mem_append.mpr (Or.inl hx)

theorem sysName_mem_addAppGroup (st : BuildData) (r : AppRow)
    (h : ∀ g ∈ st.groups, g.sysName ∈ st.orgSystems) :
    ∀ g ∈ (addAppGroup st r).groups, g.sysName ∈ (addAppGroup st r).orgSystems := by
  intro g hg
  rw [addAppGroup_groups_char] at hg
  rcases List.mem_append.mp hg with hg | hg
  · exact orgSystems_mono_addAppGroup st r g.sysName (h g hg)
  · have hge : g = ⟨r.id, r.name, orgNameOf r⟩ := by simpa using hg
    subst hge
    rw [addAppGroup_orgSystems_char]
    split
    · rename_i hc
      exact hc
    · exact List.mem_append.mpr (Or.inr (by simp))

theorem sysName_mem_fold :
    ∀ (rows : List AppRow) (st : BuildData),
      (∀ g ∈ st.groups, g.sysName ∈ st.orgSystems) →
      ∀ g ∈ (rows.foldl addAppGroup st).groups,
        g.sysName ∈ (rows.foldl addAppGroup st).orgSystems := by
  intro rows
  induction rows with
  | nil => intro st h; exact h
  | cons r rows ih =>
    intro st h
    rw [List.foldl_cons]
    exact ih _ (sysName_mem_addAppGroup st r h)

/-! ## View-phase characterization -/

theorem views_addViews :
    ∀ (procs : List ProcRow) (st : BuildData),
      (addViews st procs).views =
        st.views ++
          (procs.filter (fun bp => !(trimStr bp.id == ""))).map (mkViewOf st) := by
  intro procs
  induction procs with
  | nil => intro st; simp [addViews]
  | cons bp ps ih =>
    intro st
    have hstep : addViews st (bp :: ps) =
        addViews
          { st with views := st.views ++
              (if trimStr bp.id = "" then [] else [mkViewOf st bp]) } ps := rfl
    rw [hstep, ih]
    have hmk : mkViewOf
        { st with views := st.views ++
            (if trimStr bp.id = "" then [] else [mkViewOf st bp]) } = mkViewOf st := rfl
    rw [hmk]
    by_cases h : trimStr bp.id = ""
    · rw [if_pos h]
      rw [show (List.filter (fun bp => !(trimStr bp.id == "")) (bp :: ps)) =
          List.filter (fun bp => !(trimStr bp.id == "")) ps from by
        rw [List.filter_cons]
        simp [h]]
      simp
    · rw [if_neg h]
      rw [show (List.filter (fun bp => !(trimStr bp.id == "")) (bp :: ps)) =
          bp :: List.filter (fun bp => !(trimStr bp.id == "")) ps from by
        rw [List.filter_cons]
        simp [h]]
      simp [List.append_assoc]

/-! ## Build-pipeline assembly lemmas -/

theorem buildNodes_rels (apps : List AppRow) : (buildNodes apps).rels = [] := by
  unfold buildNodes
  rw [foldl_preserves addContainer (fun s => s.rels) addContainer_rels _ _,
    foldl_preserves addAppGroup (fun s => s.rels) addAppGroup_rels _ _]
  rfl

theorem buildNodes_seen (apps : List AppRow) : (buildNodes apps).seen = [] := by
  unfold buildNodes
  rw [foldl_preserves addContainer (fun s => s.seen) addContainer_seen _ _,
    foldl_preserves addAppGroup (fun s => s.seen) addAppGroup_seen _ _]
  rfl

theorem buildNodes_views (apps : List AppRow) : (buildNodes apps).views = [] := by
  unfold buildNodes
  rw [foldl_preserves addContainer (fun s => s.views) addContainer_views _ _,
    foldl_preserves addAppGroup (fun s => s.views) addAppGroup_views _ _]
  rfl

theorem buildGraph_rels_char (apps : List AppRow) (flows : List FlowRow) :
    (buildGraph apps flows).rels =
      (firstKept (buildNodes apps).elemById [] flows).map relOfKept := by
  unfold buildGraph
  rw [propagateTags_rels, rels_processFlows, buildNodes_rels, buildNodes_seen]
  simp

theorem firstKept_append (eid : List (String × NodeRef)) :
    ∀ (xs ys : List FlowRow) (seenKeys : List FlowKey),
      firstKept eid seenKeys (xs ++ ys) =
        firstKept eid seenKeys xs ++
          firstKept eid
            (seenKeys ++ (firstKept eid seenKeys xs).map (fun x => flowKeyOf x.2.2))
            ys := by
  intro xs
  induction xs with
  | nil => intro ys seenKeys; simp [firstKept]
  | cons f xs ih =>
    intro ys seenKeys
    rw [List.cons_append]
    rcases h1 : assocGet eid f.outbound with _ | src
    · rw [firstKept_unresolved eid seenKeys f (xs ++ ys) (Or.inl h1),
        firstKept_unresolved eid seenKeys f xs (Or.inl h1), ih]
    · rcases h2 : assocGet eid f.inbound with _ | dst
      · rw [firstKept_unresolved eid seenKeys f (xs ++ ys) (Or.inr h2),
          firstKept_unresolved eid seenKeys f xs (Or.inr h2), ih]
      · by_cases hk : flowKeyOf f ∈ seenKeys
        · rw [firstKept_seen eid seenKeys f (xs ++ ys) src dst h1 h2 hk,
            firstKept_seen eid seenKeys f xs src dst h1 h2 hk, ih]
        · rw [firstKept_new eid seenKeys f (xs ++ ys) src dst h1 h2 hk,
            firstKept_new eid seenKeys f xs src dst h1 h2 hk, ih]
          simp [List.append_assoc]

/-! ## Claim C2 -/

/-- C2: among Flow rows sharing the identity key
`(Outbound, Inbound, Objet, Protocol, Format)`, exactly one Relationship is
created and the first resolvable occurrence wins (`firstKept` keeps, per key,
the first row whose endpoints resolve, and the built relationship takes its
`Name or Objet` label); the kept keys are pairwise distinct, and feeding the
flow input twice yields exactly the relationship list of a single run. -/
theorem c2_relationship_dedup :
    (∀ (apps : List AppRow) (flows : List FlowRow) (procs : List ProcRow),
      (buildWorkspace apps flows procs).rels =
        (firstKept (buildNodes apps).elemById [] flows).map relOfKept) ∧
    (∀ (apps : List AppRow) (flows : List FlowRow),
      ((firstKept (buildNodes apps).elemById [] flows).map
        (fun x => flowKeyOf x.2.2)).Nodup) ∧
    (∀ (apps : List AppRow) (flows : List FlowRow) (procs : List ProcRow),
      (buildWorkspace apps (flows ++ flows) procs).rels =
        (buildWorkspace apps flows procs).rels) := by
  have hbw : ∀ (apps : List AppRow) (flows : List FlowRow) (procs : List ProcRow),
      (buildWorkspace apps flows procs).rels =
        (firstKept (buildNodes apps).elemById [] flows).map relOfKept := by
    intro apps flows procs
    unfold buildWorkspace
    rw [addViews_rels, buildGraph_rels_char]
  refine ⟨hbw, ?_, ?_⟩
  · intro apps flows
    exact (firstKept_keys_nodup _ flows []).1
  · intro apps flows procs
    rw [hbw, hbw]
    have hdrop : firstKept (buildNodes apps).elemById [] (flows ++ flows) =
        firstKept (buildNodes apps).elemById [] flows := by
      rw [firstKept_append]
      have hnil : firstKept (buildNodes apps).elemById
          ([] ++ (firstKept (buildNodes apps).elemById [] flows).map
            (fun x => flowKeyOf x.2.2)) flows = [] := by
        apply firstKept_nil_of_covered
        intro f hf src dst h1 h2
        rcases firstKept_key_covered (buildNodes apps).elemById flows [] f hf
            ⟨src, h1⟩ ⟨dst, h2⟩ with h | h
        · exact absurd h (List.not_mem_nil _)
        · simpa using h
      rw [hnil, List.append_nil]
    rw [hdrop]

/-! ## Claim C4 -/

/-- C4: after the build (which ends tag work with the propagation pass), every
`proc:*` tag of a container is on its parent Group; propagation only ever adds
tags (a Group keeps everything it already had, including `proc:*` tags it got
as a flow endpoint); and running the propagation pass again changes no node's
tag list. -/
theorem c4_tag_propagation :
    (∀ (apps : List AppRow) (flows : List FlowRow) (procs : List ProcRow)
        (ci : Nat) (c : ContInfo),
        (buildWorkspace apps flows procs).containers.get? ci = some c →
        ∀ t ∈ (buildWorkspace apps flows procs).tags (.cont ci),
          strStarts t "proc:" = true →
          t ∈ (buildWorkspace apps flows procs).tags (.group c.parent)) ∧
    (∀ (st : BuildData) (r : NodeRef) (t : String),
        t ∈ st.tags r → t ∈ (propagateTags st).tags r) ∧
    (∀ (st : BuildData) (r : NodeRef),
        (propagateTags (propagateTags st)).tags r = (propagateTags st).tags r) := by
  refine ⟨?_, ?_, ?_⟩
  · intro apps flows procs ci c hc t ht hp
    unfold buildWorkspace buildGraph at hc ht ⊢
    rw [addViews_containers] at hc
    rw [addViews_tags] at ht ⊢
    exact propagateTags_parent_closed _ ci c hc t ht hp
  · intro st r t ht
    cases r with
    | cont i => rw [propagateTags_tags_cont]; exact ht
    | group g => rw [mem_propagateTags_group]; exact Or.inl ht
  · intro st r
    rw [propagateTags_idem]

/-- Witness for C4 at a concrete build: container 0 (`c1`) carries `proc:a`
from flow `exF1`, and after propagation its parent Group 0 carries it too. -/
theorem c4_witness : "proc:a" ∈ (buildWorkspace exApps [exF1] []).tags (.group 0) :=
  c4_tag_propagation.1 exApps [exF1] [] 0 ⟨"c1", "Cont One", "", 0⟩ (by rfl)
    "proc:a" (by decide) (by decide)

/-! ## Claim C8 -/

/-- C8 as stated is false: a BusinessProcesses row whose stripped `ID` is
empty is skipped by `if not pid: continue` and yields no View at all. -/
theorem c8_counterexample :
    ([(⟨" ", "P"⟩ : ProcRow)].length = 1) ∧
    (buildWorkspace [] [] [⟨" ", "P"⟩]).views.length = 0 := by
  exact ⟨rfl, rfl⟩

/-- C8 amended: the views are exactly one per BusinessProcesses row with a
non-blank stripped id, in row order — including an empty View when no
container qualifies; blank-id rows yield no View. -/
theorem c8_views_per_nonblank_process (apps : List AppRow) (flows : List FlowRow)
    (procs : List ProcRow) :
    (buildWorkspace apps flows procs).views =
      (procs.filter (fun bp => !(trimStr bp.id == ""))).map
        (mkViewOf (buildGraph apps flows)) ∧
    (buildWorkspace apps flows procs).views.length =
      (procs.filter (fun bp => !(trimStr bp.id == ""))).length := by
  have hv : (buildWorkspace apps flows procs).views =
      (procs.filter (fun bp => !(trimStr bp.id == ""))).map
        (mkViewOf (buildGraph apps flows)) := by
    unfold buildWorkspace
    rw [views_addViews]
    have hnil : (buildGraph apps flows).views = [] := by
      unfold buildGraph
      rw [propagateTags_views, processFlows_views, buildNodes_views]
    rw [hnil, List.nil_append]
  exact ⟨hv, by rw [hv, List.length_map]⟩

/-! ## Claim C10 -/

/-- C10: each top-level Application row yields a Group whose software-system
is named by the Organisation of the row (with `""` replaced by `"Unknown"`); the
created systems are pairwise distinct (rows with equal Organisation share
one), and the system of every Group is among the created systems. -/
theorem c10_org_systems (apps : List AppRow) (flows : List FlowRow)
    (procs : List ProcRow) :
    (buildWorkspace apps flows procs).groups.map
        (fun g => (g.id, g.name, g.sysName)) =
      (apps.filter (fun r => r.application == "#")).map
        (fun r => (r.id, r.name,
          if r.organisation = "" then "Unknown" else r.organisation)) ∧
    (buildWorkspace apps flows procs).orgSystems.Nodup ∧
    ∀ g ∈ (buildWorkspace apps flows procs).groups,
      g.sysName ∈ (buildWorkspace apps flows procs).orgSystems := by
  have hg : (buildWorkspace apps flows procs).groups =
      ((apps.filter (fun r => r.application == "#")).foldl addAppGroup
        initState).groups := by
    unfold buildWorkspace buildGraph buildNodes
    rw [addViews_groups, propagateTags_groups, processFlows_groups,
      foldl_preserves addContainer (fun s => s.groups) addContainer_groups _ _]
  have ho : (buildWorkspace apps flows procs).orgSystems =
      ((apps.filter (fun r => r.application == "#")).foldl addAppGroup
        initState).orgSystems := by
    unfold buildWorkspace buildGraph buildNodes
    rw [addViews_orgSystems, propagateTags_orgSystems, processFlows_orgSystems,
      foldl_preserves addContainer (fun s => s.orgSystems)
        addContainer_orgSystems _ _]
  refine ⟨?_, ?_, ?_⟩
  · rw [hg, groups_fold_addAppGroup]
    rw [show initState.groups = [] from rfl, List.nil_append, List.map_map]
    rfl
  · rw [ho]
    exact orgSystems_nodup_fold _ initState List.nodup_nil
  · intro g hmem
    rw [hg] at hmem
    rw [ho]
    exact sysName_mem_fold _ initState
      (fun g' hg' => absurd hg' (List.not_mem_nil g')) g hmem

/-- Witness for C10 at a concrete build: the Group built from row `g1` sits
under the system `OrgA` named by its Organisation cell. -/
theorem c10_witness :
    (⟨"g1", "Group One", "OrgA"⟩ : GroupInfo).sysName ∈
      (buildWorkspace exApps [] []).orgSystems :=
  (c10_org_systems exApps [] []).2.2 ⟨"g1", "Group One", "OrgA"⟩ (by decide)

/-! ## Claim C1 -/

/-- C1: when both sheets have their required columns and some Applications
row `i` is flagged as a Component with a `ParentAppID` outside the
Applications ID set, the pipeline (validate, then build) stops at validation
with the `Invalid ParentAppID rows` error, whose row list contains `i`; no
workspace is built. -/
theorem c1_bad_parent_aborts (apps flows procs : RawTable) (i : Nat)
    (r : List (String × String))
    (hA : REQUIRED_APP.filter (fun c => !(apps.columns.contains c)) = [])
    (hF : REQUIRED_FLOW.filter (fun c => !(flows.columns.contains c)) = [])
    (hr : apps.rows.get? i = some r)
    (hcomp : cell r "Component" = "#")
    (hbad : (apps.rows.map (fun r => cell r "ID")).contains
      (cell r "ParentAppID") = false) :
    pipeline apps flows procs = .error (.invalidParentRows (badParentRows apps)) ∧
    i ∈ badParentRows apps := by
  have hi : i ∈ badParentRows apps := by
    simp only [badParentRows]
    rw [List.mem_filter]
    refine ⟨List.mem_range.mpr (List.get?_eq_some.mp hr).1, ?_⟩
    rw [hr]
    show (cell r "Component" == "#" &&
      !((apps.rows.map (fun r => cell r "ID")).contains (cell r "ParentAppID"))) = true
    rw [hcomp, hbad]
    rfl
  refine ⟨?_, hi⟩
  have hne : badParentRows apps ≠ [] := by
    intro h
    rw [h] at hi
    exact List.not_mem_nil i hi
  simp only [pipeline, validate, hA, hF]
  simp [hne]

/-- Witness for C1: the fixture whose second row (`index 1`) is a Component
with unknown parent `nope` aborts the pipeline at validation. -/
theorem c1_witness :
    pipeline exRawAppsBadParent exRawFlowsEmpty exRawProcsEmpty =
      .error (.invalidParentRows (badParentRows exRawAppsBadParent)) ∧
    1 ∈ badParentRows exRawAppsBadParent :=
  c1_bad_parent_aborts exRawAppsBadParent exRawFlowsEmpty exRawProcsEmpty 1
    (rawAppRow "c1" "C One" "" "#" "nope" "add" "") rfl rfl rfl rfl rfl

/-! ## Claim C7 -/

/-- C7 as stated is false: with the `Name` column missing from Applications
and the `Format` column missing from Flows, validate raises only the
Applications error — the missing Flows column is not enumerated with it. -/
theorem c7_counterexample :
    ("Format" ∈ REQUIRED_FLOW) ∧ ("Format" ∉ exRawFlowsNoFormat.columns) ∧
    validate exRawAppsNoName exRawFlowsNoFormat =
      .error (.appsMissingColumns ["Name"]) :=
  ⟨by decide, by decide, by rfl⟩

/-- C7 amended: each individual check aggregates all of its findings in one
error (all missing Applications columns together, all offending row indices
together), but the checks run in sequence and the first failure aborts
validation, so later categories go unreported: an error of a given
constructor carries the full finding list of that check and implies every earlier
check was clean. -/
theorem c7_aggregation_per_check (apps flows : RawTable) (e : ValidationError)
    (h : validate apps flows = .error e) :
    match e with
    | .appsMissingColumns m =>
        m = REQUIRED_APP.filter (fun c => !(apps.columns.contains c))
    | .flowsMissingColumns m =>
        m = REQUIRED_FLOW.filter (fun c => !(flows.columns.contains c)) ∧
        REQUIRED_APP.filter (fun c => !(apps.columns.contains c)) = []
    | .invalidParentRows l =>
        l = badParentRows apps ∧
        REQUIRED_APP.filter (fun c => !(apps.columns.contains c)) = [] ∧
        REQUIRED_FLOW.filter (fun c => !(flows.columns.contains c)) = []
    | .unknownIdRows col l =>
        (col = "Outbound" ∧
          l = badEndpointRows flows (apps.rows.map (fun r => cell r "ID"))
            "Outbound" ∧
          badParentRows apps = []) ∨
        (col = "Inbound" ∧
          l = badEndpointRows flows (apps.rows.map (fun r => cell r "ID"))
            "Inbound" ∧
          badEndpointRows flows (apps.rows.map (fun r => cell r "ID"))
            "Outbound" = []) := by
  simp only [validate] at h
  by_cases hA : REQUIRED_APP.filter (fun c => !(apps.columns.contains c)) = []
  case neg =>
    rw [if_pos hA] at h
    injection h with h1
    subst h1
    exact rfl
  case pos =>
    rw [if_neg (fun hc => hc hA)] at h
    by_cases hF : REQUIRED_FLOW.filter (fun c => !(flows.columns.contains c)) = []
    case neg =>
      rw [if_pos hF] at h
      injection h with h1
      subst h1
      exact ⟨rfl, hA⟩
    case pos =>
      rw [if_neg (fun hc => hc hF)] at h
      by_cases hP : badParentRows apps = []
      case neg =>
        rw [if_pos hP] at h
        injection h with h1
        subst h1
        exact ⟨rfl, hA, hF⟩
      case pos =>
        rw [if_neg (fun hc => hc hP)] at h
        by_cases hO : badEndpointRows flows
            (apps.rows.map (fun r => cell r "ID")) "Outbound" = []
        case neg =>
          rw [if_pos hO] at h
          injection h with h1
          subst h1
          exact Or.inl ⟨rfl, rfl, hP⟩
        case pos =>
          rw [if_neg (fun hc => hc hO)] at h
          by_cases hI : badEndpointRows flows
              (apps.rows.map (fun r => cell r "ID")) "Inbound" = []
          case neg =>
            rw [if_pos hI] at h
            injection h with h1
            subst h1
            exact Or.inr ⟨rfl, rfl, hO⟩
          case pos =>
            rw [if_neg (fun hc => hc hI)] at h
            cases h

/-- Witness for the amended claim C7 at the bad-parent fixture: the list
inside the raised error is the complete list of offending row indices, and
both column
checks were clean. -/
theorem c7_witness :
    [1] = badParentRows exRawAppsBadParent ∧
    REQUIRED_APP.filter
      (fun c => !(exRawAppsBadParent.columns.contains c)) = [] ∧
    REQUIRED_FLOW.filter
      (fun c => !(exRawFlowsEmpty.columns.contains c)) = [] :=
  c7_aggregation_per_check exRawAppsBadParent exRawFlowsEmpty
    (.invalidParentRows [1]) (by rfl)

/-! ## Claim C6 -/

/-- C6 as stated is false: a Flow row whose Outbound id is absent from the
Applications ID set makes `validate` raise, so the pipeline aborts — the
unresolved endpoint is fatal, not a logged-and-skipped warning. -/
theorem c6_counterexample :
    pipeline exRawAppsOk exRawFlowsBadOut exRawProcsEmpty =
      .error (.unknownIdRows "Outbound" [0]) := by rfl

/-- C6 amended: a Flow row whose endpoint id is outside the Applications ID
set aborts validation (shown for Outbound), listing every offending row; a
Flow row that passes validation but whose endpoint resolves to no built node
is dropped by the builder silently — the state (relationships, warnings,
tags) is left exactly unchanged — and the build continues. -/
theorem c6_endpoint_handling :
    (∀ (apps flows procs : RawTable) (i : Nat) (r : List (String × String)),
      REQUIRED_APP.filter (fun c => !(apps.columns.contains c)) = [] →
      REQUIRED_FLOW.filter (fun c => !(flows.columns.contains c)) = [] →
      badParentRows apps = [] →
      flows.rows.get? i = some r →
      (apps.rows.map (fun r => cell r "ID")).contains (cell r "Outbound") = false →
      pipeline apps flows procs =
        .error (.unknownIdRows "Outbound"
          (badEndpointRows flows (apps.rows.map (fun r => cell r "ID"))
            "Outbound")) ∧
      i ∈ badEndpointRows flows (apps.rows.map (fun r => cell r "ID"))
        "Outbound") ∧
    (∀ (st : BuildData) (f : FlowRow),
      assocGet st.elemById f.outbound = none ∨
        assocGet st.elemById f.inbound = none →
      processFlow st f = st) := by
  constructor
  · intro apps flows procs i r hA hF hP hr hbad
    have hi : i ∈ badEndpointRows flows (apps.rows.map (fun r => cell r "ID"))
        "Outbound" := by
      simp only [badEndpointRows]
      rw [List.mem_filter]
      refine ⟨List.mem_range.mpr (List.get?_eq_some.mp hr).1, ?_⟩
      rw [hr]
      show (!((apps.rows.map (fun r => cell r "ID")).contains (cell r "Outbound"))) = true
      rw [hbad]
      rfl
    have hne : badEndpointRows flows (apps.rows.map (fun r => cell r "ID"))
        "Outbound" ≠ [] := by
      intro h
      rw [h] at hi
      exact List.not_mem_nil i hi
    refine ⟨?_, hi⟩
    simp only [pipeline, validate, hA, hF, hP]
    simp [hne]
  · exact fun st f h => processFlow_unresolved st f h

/-- Witness for the amended claim C6: the unknown-Outbound fixture aborts at
validation with row 0 listed. -/
theorem c6_witness :
    pipeline exRawAppsOk exRawFlowsBadOut exRawProcsEmpty =
      .error (.unknownIdRows "Outbound"
        (badEndpointRows exRawFlowsBadOut
          (exRawAppsOk.rows.map (fun r => cell r "ID")) "Outbound")) ∧
    0 ∈ badEndpointRows exRawFlowsBadOut
      (exRawAppsOk.rows.map (fun r => cell r "ID")) "Outbound" :=
  c6_endpoint_handling.1 exRawAppsOk exRawFlowsBadOut exRawProcsEmpty 0
    (rawFlowRow "f1" "n" "zz" "g1" "o" "p" "x" "" "a") rfl rfl rfl rfl rfl

/-! ## Claim C3 -/

theorem mem_includes_block (st : BuildData) (tag : String) (gi ci : Nat) :
    ci ∈ (List.range st.containers.length).filter (fun cj =>
      match st.containers.get? cj with
      | some c => c.parent == gi && decide (tag ∈ st.tags (.cont cj))
      | none => false) ↔
    ∃ c, st.containers.get? ci = some c ∧ c.parent = gi ∧
      tag ∈ st.tags (.cont ci) := by
  rw [List.mem_filter]
  constructor
  · rintro ⟨hrange, hpred⟩
    cases hc : st.containers.get? ci with
    | none => rw [hc] at hpred; cases hpred
    | some c =>
      rw [hc] at hpred
      simp only [Bool.and_eq_true, beq_iff_eq, decide_eq_true_eq] at hpred
      exact ⟨c, rfl, hpred.1, hpred.2⟩
  · rintro ⟨c, hc, hpar, htag⟩
    refine ⟨List.mem_range.mpr (List.get?_eq_some.mp hc).1, ?_⟩
    rw [hc]
    simp [hpar, htag]

theorem mem_deriveIncludes (st : BuildData) (tag : String) (ci : Nat) :
    ci ∈ deriveIncludes st tag ↔
      ∃ gi ∈ assocValues st.groupsById, ∃ c, st.containers.get? ci = some c ∧
        c.parent = gi ∧ tag ∈ st.tags (.cont ci) := by
  unfold deriveIncludes
  generalize assocValues st.groupsById = gis
  induction gis with
  | nil => simp
  | cons gi gis ih =>
    rw [List.foldr_cons, List.mem_append, ih, List.exists_mem_cons_iff,
      mem_includes_block]

/-- C3: for each BusinessProcess row with non-blank id, the derived view is
among the workspace views, and — for every Group `g` of `groups_by_id` — the
view contains a container of `g` iff some container of `g` carries the tag
`proc:<lowercase stripped id>`, the containers of the view under `g` being exactly
the tagged ones. -/
theorem c3_view_group_content (apps : List AppRow) (flows : List FlowRow)
    (procs : List ProcRow) (bp : ProcRow)
    (hbp : bp ∈ procs) (hid : trimStr bp.id ≠ "") :
    mkViewOf (buildGraph apps flows) bp ∈ (buildWorkspace apps flows procs).views ∧
    (∀ g ∈ assocValues (buildGraph apps flows).groupsById,
      ((∃ ci ∈ (mkViewOf (buildGraph apps flows) bp).includes,
          ∃ c, (buildGraph apps flows).containers.get? ci = some c ∧
            c.parent = g) ↔
        (∃ ci c, (buildGraph apps flows).containers.get? ci = some c ∧
          c.parent = g ∧
          ("proc:" ++ lowerStr (trimStr bp.id)) ∈
            (buildGraph apps flows).tags (.cont ci)))) ∧
    (∀ g ∈ assocValues (buildGraph apps flows).groupsById, ∀ ci,
      ((ci ∈ (mkViewOf (buildGraph apps flows) bp).includes ∧
          ∃ c, (buildGraph apps flows).containers.get? ci = some c ∧
            c.parent = g) ↔
        (∃ c, (buildGraph apps flows).containers.get? ci = some c ∧
          c.parent = g ∧
          ("proc:" ++ lowerStr (trimStr bp.id)) ∈
            (buildGraph apps flows).tags (.cont ci)))) := by
  have hinc : (mkViewOf (buildGraph apps flows) bp).includes =
      deriveIncludes (buildGraph apps flows)
        ("proc:" ++ lowerStr (trimStr bp.id)) := rfl
  have h3 : ∀ g ∈ assocValues (buildGraph apps flows).groupsById, ∀ ci,
      ((ci ∈ (mkViewOf (buildGraph apps flows) bp).includes ∧
          ∃ c, (buildGraph apps flows).containers.get? ci = some c ∧
            c.parent = g) ↔
        (∃ c, (buildGraph apps flows).containers.get? ci = some c ∧
          c.parent = g ∧
          ("proc:" ++ lowerStr (trimStr bp.id)) ∈
            (buildGraph apps flows).tags (.cont ci))) := by
    intro g hg ci
    rw [hinc, mem_deriveIncludes]
    constructor
    · rintro ⟨⟨gi, hgi, c', hc', hpar', htag⟩, c, hc, hpar⟩
      have hcc : c' = c := Option.some.inj (hc'.symm.trans hc)
      subst hcc
      exact ⟨c', hc', hpar, htag⟩
    · rintro ⟨c, hc, hpar, htag⟩
      exact ⟨⟨g, hg, c, hc, hpar, htag⟩, c, hc, hpar⟩
  refine ⟨?_, ?_, h3⟩
  · unfold buildWorkspace
    rw [views_addViews]
    apply List.mem_append.mpr
    refine Or.inr (List.mem_map_of_mem _ ?_)
    rw [List.mem_filter]
    refine ⟨hbp, ?_⟩
    simp [hid]
  · intro g hg
    constructor
    · rintro ⟨ci, hci, hex⟩
      obtain ⟨c, hc, hpar, htag⟩ := (h3 g hg ci).mp ⟨hci, hex⟩
      exact ⟨ci, c, hc, hpar, htag⟩
    · rintro ⟨ci, c, hc, hpar, htag⟩
      obtain ⟨hci, hex⟩ := (h3 g hg ci).mpr ⟨c, hc, hpar, htag⟩
      exact ⟨ci, hci, hex⟩

/-- Witness for C3: for process `A` over the two-group fixture, the derived
view is among the built views. -/
theorem c3_witness :
    mkViewOf (buildGraph exApps [exF1]) exP1 ∈
      (buildWorkspace exApps [exF1] [exP1]).views :=
  (c3_view_group_content exApps [exF1] [exP1] exP1 (by decide) (by decide)).1

/-! ## Claim C5 -/

/-- C5 as stated is false: two Flow rows with the same identity key but
different BusinessProcess cells (`exF1` with `a`, `exF1b` with `b`) are a
permutation of each other in either order, yet the kept row — and hence the
final tag sets — depends on the order: `proc:a` lands on container 0 only
when `exF1` comes first. -/
theorem c5_counterexample :
    ([exF1, exF1b].Perm [exF1b, exF1]) ∧
    "proc:a" ∈ (buildWorkspace exApps [exF1, exF1b] []).tags (.cont 0) ∧
    "proc:a" ∉ (buildWorkspace exApps [exF1b, exF1] []).tags (.cont 0) :=
  ⟨List.Perm.swap exF1b exF1 [], by decide, by decide⟩

theorem mem_buildGraph_tags_cont (apps : List AppRow) (flows : List FlowRow)
    (hnd : (flows.map flowKeyOf).Nodup) (i : Nat) (t : String) :
    t ∈ (buildGraph apps flows).tags (.cont i) ↔
      t ∈ (buildNodes apps).tags (.cont i) ∨
      ∃ f ∈ flows, rowGives (buildNodes apps).elemById f (.cont i) t := by
  unfold buildGraph
  rw [propagateTags_tags_cont]
  exact mem_processFlows flows (buildNodes apps) hnd
    (fun f hf => by rw [buildNodes_seen]; exact List.not_mem_nil _) (.cont i) t

theorem mem_buildGraph_tags_group (apps : List AppRow) (flows : List FlowRow)
    (hnd : (flows.map flowKeyOf).Nodup) (g : Nat) (t : String) :
    t ∈ (buildGraph apps flows).tags (.group g) ↔
      (t ∈ (buildNodes apps).tags (.group g) ∨
        ∃ f ∈ flows, rowGives (buildNodes apps).elemById f (.group g) t) ∨
      (strStarts t "proc:" = true ∧
        ∃ ci c, (buildNodes apps).containers.get? ci = some c ∧ c.parent = g ∧
          (t ∈ (buildNodes apps).tags (.cont ci) ∨
            ∃ f ∈ flows, rowGives (buildNodes apps).elemById f (.cont ci) t)) := by
  unfold buildGraph
  rw [mem_propagateTags_group]
  have hpre : ∀ f ∈ flows, flowKeyOf f ∉ (buildNodes apps).seen :=
    fun f hf => by rw [buildNodes_seen]; exact List.not_mem_nil _
  simp only [processFlows_containers, processFlows_elemById,
    mem_processFlows flows (buildNodes apps) hnd hpre]

/-- C5 amended: when no two Flow rows share an identity key, relationship
creation plus tag propagation is permutation-invariant — any reordering of
the Flow rows yields the same final tag set on every node.  (The
counterexample shows the restriction is necessary: duplicate-key rows with
different BusinessProcess cells make the surviving tags order-dependent.) -/
theorem c5_perm_invariance (apps : List AppRow) (flows flows' : List FlowRow)
    (procs : List ProcRow) (hperm : flows'.Perm flows)
    (hnd : (flows.map flowKeyOf).Nodup) :
    ∀ (r : NodeRef) (t : String),
      t ∈ (buildWorkspace apps flows' procs).tags r ↔
        t ∈ (buildWorkspace apps flows procs).tags r := by
  have hnd' : (flows'.map flowKeyOf).Nodup := ((hperm.map flowKeyOf).nodup_iff).mpr hnd
  have htags : ∀ (fl : List FlowRow) (r : NodeRef),
      (buildWorkspace apps fl procs).tags r = (buildGraph apps fl).tags r := by
    intro fl r
    unfold buildWorkspace
    rw [addViews_tags]
  intro r t
  have hex : ∀ (rr : NodeRef),
      (∃ f ∈ flows', rowGives (buildNodes apps).elemById f rr t) ↔
      (∃ f ∈ flows, rowGives (buildNodes apps).elemById f rr t) := by
    intro rr
    constructor
    · rintro ⟨f, hf, hg⟩
      exact ⟨f, hperm.mem_iff.mp hf, hg⟩
    · rintro ⟨f, hf, hg⟩
      exact ⟨f, hperm.mem_iff.mpr hf, hg⟩
  rw [htags, htags]
  cases r with
  | cont i =>
    rw [mem_buildGraph_tags_cont apps flows' hnd' i t,
      mem_buildGraph_tags_cont apps flows hnd i t]
    simp only [hex]
  | group g =>
    rw [mem_buildGraph_tags_group apps flows' hnd' g t,
      mem_buildGraph_tags_group apps flows hnd g t]
    simp only [hex]

/-- Witness for the amended claim C5 at distinct-key flows `exF1, exF2` and
their swap. -/
theorem c5_witness :
    "proc:a" ∈ (buildWorkspace exApps [exF2, exF1] []).tags (.cont 0) ↔
    "proc:a" ∈ (buildWorkspace exApps [exF1, exF2] []).tags (.cont 0) :=
  c5_perm_invariance exApps [exF1, exF2] [exF2, exF1] []
    (List.Perm.swap exF1 exF2 []) (by decide) (.cont 0) "proc:a"

/-! ## Claim C9: status-independence simulation -/

theorem tagsUpToStatus_refl (ts : List String) : tagsUpToStatus ts ts := by
  induction ts with
  | nil => exact List.Forall₂.nil
  | cons a ts ih => exact List.Forall₂.cons (Or.inl rfl) ih

theorem tagsUpToStatus_mem {ts ts' : List String} (h : tagsUpToStatus ts ts')
    {t : String} (ht : strStarts t "status:" = false) : t ∈ ts ↔ t ∈ ts' := by
  induction h with
  | nil => simp
  | @cons a b l₁ l₂ hab hrest ih =>
    simp only [List.mem_cons]
    rcases hab with rfl | ⟨ha, hb⟩
    · rw [ih]
    · constructor
      · rintro (rfl | hm)
        · rw [ht] at ha; cases ha
        · exact Or.inr (ih.mp hm)
      · rintro (rfl | hm)
        · rw [ht] at hb; cases hb
        · exact Or.inr (ih.mpr hm)

theorem tagsUpToStatus_append {ts ts' : List String} (h : tagsUpToStatus ts ts')
    (t : String) : tagsUpToStatus (ts ++ [t]) (ts' ++ [t]) :=
  List.rel_append h (List.Forall₂.cons (Or.inl rfl) List.Forall₂.nil)

theorem forall2_filter {α : Type _} {R : α → α → Prop} (p : α → Bool)
    (hp : ∀ a b, R a b → p a = p b) :
    ∀ {l l' : List α}, List.Forall₂ R l l' →
      List.Forall₂ R (l.filter p) (l'.filter p) := by
  intro l l' h
  induction h with
  | nil => exact List.Forall₂.nil
  | @cons a b l₁ l₂ hab hrest ih =>
    rw [List.filter_cons, List.filter_cons, ← hp a b hab]
    by_cases hpa : p a = true
    · rw [if_pos hpa, if_pos hpa]
      exact List.Forall₂.cons hab ih
    · rw [if_neg hpa, if_neg hpa]
      exact ih

theorem buildEquiv_refl (st : BuildData) : buildEquiv st st :=
  ⟨rfl, rfl, rfl, rfl, rfl, rfl, rfl, rfl, fun r => tagsUpToStatus_refl _⟩

theorem addAppGroup_eq (st : BuildData) (r : AppRow) :
    addAppGroup st r =
      updTags
        { st with
          orgSystems :=
            if orgNameOf r ∈ st.orgSystems then st.orgSystems
            else st.orgSystems ++ [orgNameOf r],
          groups := st.groups ++ [⟨r.id, r.name, orgNameOf r⟩],
          elemById := assocUpd st.elemById r.id (.group st.groups.length),
          groupsById := assocUpd st.groupsById r.id st.groups.length }
        (.group st.groups.length) ["ApplicationGroup", statusTagOf r] := by
  simp only [addAppGroup]
  split <;> rfl

theorem buildEquiv_addAppGroup {s1 s2 : BuildData} (h : buildEquiv s1 s2)
    {r r' : AppRow} (hr : agreeExceptStatus r r') :
    buildEquiv (addAppGroup s1 r) (addAppGroup s2 r') := by
  obtain ⟨h1, h2, h3, h4, h5, h6, h7, h8, h9⟩ := h
  obtain ⟨e1, e2, e3, e4, e5, e6, e7⟩ := hr
  have horg : orgNameOf r = orgNameOf r' := by unfold orgNameOf; rw [e6]
  have hlen : s1.groups.length = s2.groups.length := by rw [h2]
  rw [addAppGroup_eq, addAppGroup_eq]
  refine ⟨?_, ?_, h3, ?_, ?_, h6, h7, h8, ?_⟩
  · show (if orgNameOf r ∈ s1.orgSystems then s1.orgSystems
        else s1.orgSystems ++ [orgNameOf r]) =
      (if orgNameOf r' ∈ s2.orgSystems then s2.orgSystems
        else s2.orgSystems ++ [orgNameOf r'])
    rw [horg, h1]
  · show s1.groups ++ [⟨r.id, r.name, orgNameOf r⟩] =
      s2.groups ++ [⟨r'.id, r'.name, orgNameOf r'⟩]
    rw [h2, e1, e2, horg]
  · show assocUpd s1.elemById r.id (.group s1.groups.length) =
      assocUpd s2.elemById r'.id (.group s2.groups.length)
    rw [h4, e1, hlen]
  · show assocUpd s1.groupsById r.id s1.groups.length =
      assocUpd s2.groupsById r'.id s2.groups.length
    rw [h5, e1, hlen]
  · intro rr
    show tagsUpToStatus
      (if rr = .group s1.groups.length then ["ApplicationGroup", statusTagOf r]
        else s1.tags rr)
      (if rr = .group s2.groups.length then ["ApplicationGroup", statusTagOf r']
        else s2.tags rr)
    rw [show (NodeRef.group s2.groups.length) = .group s1.groups.length from by
      rw [hlen]]
    by_cases hrr : rr = .group s1.groups.length
    · rw [if_pos hrr, if_pos hrr]
      exact List.Forall₂.cons (Or.inl rfl)
        (List.Forall₂.cons (Or.inr ⟨statusTag_starts r, statusTag_starts r'⟩)
          List.Forall₂.nil)
    · rw [if_neg hrr, if_neg hrr]
      exact h9 rr

theorem buildEquiv_addContainer {s1 s2 : BuildData} (h : buildEquiv s1 s2)
    {r r' : AppRow} (hr : agreeExceptStatus r r') :
    buildEquiv (addContainer s1 r) (addContainer s2 r') := by
  obtain ⟨h1, h2, h3, h4, h5, h6, h7, h8, h9⟩ := h
  obtain ⟨e1, e2, e3, e4, e5, e6, e7⟩ := hr
  have hclen : s1.containers.length = s2.containers.length := by rw [h3]
  unfold addContainer
  rcases hp : assocGet s1.groupsById r.parentAppID with _ | p
  · have hp' : assocGet s2.groupsById r'.parentAppID = none := by
      rw [← h5, ← e5]; exact hp
    simp only [hp, hp']
    refine ⟨h1, h2, h3, h4, h5, ?_, h7, h8, h9⟩
    show s1.warnings ++ ["Skip container " ++ r.id ++ ": parent " ++
        r.parentAppID ++ " missing"] =
      s2.warnings ++ ["Skip container " ++ r'.id ++ ": parent " ++
        r'.parentAppID ++ " missing"]
    rw [h6, e1, e5]
  · have hp' : assocGet s2.groupsById r'.parentAppID = some p := by
      rw [← h5, ← e5]; exact hp
    simp only [hp, hp']
    refine ⟨h1, h2, ?_, ?_, h5, h6, h7, h8, ?_⟩
    · show s1.containers ++ [⟨r.id, r.name, r.description, p⟩] =
        s2.containers ++ [⟨r'.id, r'.name, r'.description, p⟩]
      rw [h3, e1, e2, e7]
    · show assocUpd s1.elemById r.id (.cont s1.containers.length) =
        assocUpd s2.elemById r'.id (.cont s2.containers.length)
      rw [h4, e1, hclen]
    · intro rr
      show tagsUpToStatus
        (if rr = .cont s1.containers.length
          then ["ApplicationContainer", statusTagOf r] else s1.tags rr)
        (if rr = .cont s2.containers.length
          then ["ApplicationContainer", statusTagOf r'] else s2.tags rr)
      rw [show (NodeRef.cont s2.containers.length) =
          .cont s1.containers.length from by rw [hclen]]
      by_cases hrr : rr = .cont s1.containers.length
      · rw [if_pos hrr, if_pos hrr]
        exact List.Forall₂.cons (Or.inl rfl)
          (List.Forall₂.cons (Or.inr ⟨statusTag_starts r, statusTag_starts r'⟩)
            List.Forall₂.nil)
      · rw [if_neg hrr, if_neg hrr]
        exact h9 rr

theorem buildEquiv_addProcTag {s1 s2 : BuildData} (h : buildEquiv s1 s2)
    (r : NodeRef) (tag : String) (htag : strStarts tag "status:" = false) :
    buildEquiv (addProcTag s1 r tag) (addProcTag s2 r tag) := by
  obtain ⟨h1, h2, h3, h4, h5, h6, h7, h8, h9⟩ := h
  unfold addProcTag
  have hmem := tagsUpToStatus_mem (h9 r) htag
  by_cases hm : tag ∈ s1.tags r
  · rw [if_pos hm, if_pos (hmem.mp hm)]
    exact ⟨h1, h2, h3, h4, h5, h6, h7, h8, h9⟩
  · rw [if_neg hm, if_neg (fun hc => hm (hmem.mpr hc))]
    refine ⟨h1, h2, h3, h4, h5, h6, h7, h8, ?_⟩
    intro rr
    simp only [updTags_tags]
    by_cases hrr : rr = r
    · rw [if_pos hrr, if_pos hrr]
      exact tagsUpToStatus_append (h9 r) tag
    · rw [if_neg hrr, if_neg hrr]
      exact h9 rr

theorem buildEquiv_addFlowTags (src dst : NodeRef) :
    ∀ (toks : List String) {s1 s2 : BuildData}, buildEquiv s1 s2 →
      buildEquiv (addFlowTags src dst s1 toks) (addFlowTags src dst s2 toks) := by
  intro toks
  induction toks with
  | nil => intro s1 s2 h; exact h
  | cons p ps ih =>
    intro s1 s2 h
    have hp : strStarts ("proc:" ++ p) "status:" = false :=
      proc_not_status (procTag_starts p)
    exact ih (buildEquiv_addProcTag (buildEquiv_addProcTag h src _ hp) dst _ hp)

theorem buildEquiv_processFlow (f : FlowRow) {s1 s2 : BuildData}
    (h : buildEquiv s1 s2) : buildEquiv (processFlow s1 f) (processFlow s2 f) := by
  have h4 : s1.elemById = s2.elemById := h.2.2.2.1
  have h8 : s1.seen = s2.seen := h.2.2.2.2.2.2.2.1
  rcases hl1 : assocGet s1.elemById f.outbound with _ | src
  · rw [processFlow_unresolved s1 f (Or.inl hl1),
      processFlow_unresolved s2 f (Or.inl (by rw [← h4]; exact hl1))]
    exact h
  · rcases hl2 : assocGet s1.elemById f.inbound with _ | dst
    · rw [processFlow_unresolved s1 f (Or.inr hl2),
        processFlow_unresolved s2 f (Or.inr (by rw [← h4]; exact hl2))]
      exact h
    · have hl1' : assocGet s2.elemById f.outbound = some src := by
        rw [← h4]; exact hl1
      have hl2' : assocGet s2.elemById f.inbound = some dst := by
        rw [← h4]; exact hl2
      by_cases hk : flowKeyOf f ∈ s1.seen
      · rw [processFlow_resolved_seen s1 f src dst hl1 hl2 hk,
          processFlow_resolved_seen s2 f src dst hl1' hl2' (h8 ▸ hk)]
        exact h
      · rw [processFlow_resolved_new s1 f src dst hl1 hl2 hk,
          processFlow_resolved_new s2 f src dst hl1' hl2'
            (fun hc => hk (by rw [h8]; exact hc))]
        apply buildEquiv_addFlowTags
        obtain ⟨h1, h2, h3, h4, h5, h6, h7, h8, h9⟩ := h
        exact ⟨h1, h2, h3, h4, h5, h6, by rw [h7], by rw [h8], h9⟩

theorem buildEquiv_copyProcTags (gi : Nat) :
    ∀ {ts ts' : List String}, tagsUpToStatus ts ts' →
      ∀ {s1 s2 : BuildData}, buildEquiv s1 s2 →
        buildEquiv (copyProcTags gi s1 ts) (copyProcTags gi s2 ts') := by
  intro ts ts' hts
  induction hts with
  | nil => intro s1 s2 h; exact h
  | @cons a b l₁ l₂ hab hrest ih =>
    intro s1 s2 h
    apply ih
    show buildEquiv
      (if strStarts a "proc:" = true ∧ a ∉ s1.tags (.group gi)
       then updTags s1 (.group gi) (s1.tags (.group gi) ++ [a]) else s1)
      (if strStarts b "proc:" = true ∧ b ∉ s2.tags (.group gi)
       then updTags s2 (.group gi) (s2.tags (.group gi) ++ [b]) else s2)
    obtain ⟨h1, h2, h3, h4, h5, h6, h7, h8, h9⟩ := h
    rcases hab with rfl | ⟨ha, hb⟩
    · by_cases hc : strStarts a "proc:" = true ∧ a ∉ s1.tags (.group gi)
      · have hc' : strStarts a "proc:" = true ∧ a ∉ s2.tags (.group gi) :=
          ⟨hc.1, fun hm => hc.2
            ((tagsUpToStatus_mem (h9 _) (proc_not_status hc.1)).mpr hm)⟩
        rw [if_pos hc, if_pos hc']
        refine ⟨h1, h2, h3, h4, h5, h6, h7, h8, ?_⟩
        intro rr
        simp only [updTags_tags]
        by_cases hrr : rr = .group gi
        · rw [if_pos hrr, if_pos hrr]
          exact tagsUpToStatus_append (h9 _) a
        · rw [if_neg hrr, if_neg hrr]
          exact h9 rr
      · have hc' : ¬(strStarts a "proc:" = true ∧ a ∉ s2.tags (.group gi)) := by
          rintro ⟨hp, hm⟩
          exact hc ⟨hp, fun hm1 => hm
            ((tagsUpToStatus_mem (h9 _) (proc_not_status hp)).mp hm1)⟩
        rw [if_neg hc, if_neg hc']
        exact ⟨h1, h2, h3, h4, h5, h6, h7, h8, h9⟩
    · have hca : ¬(strStarts a "proc:" = true ∧ a ∉ s1.tags (.group gi)) := by
        rintro ⟨hp, -⟩
        rw [status_not_proc ha] at hp
        cases hp
      have hcb : ¬(strStarts b "proc:" = true ∧ b ∉ s2.tags (.group gi)) := by
        rintro ⟨hp, -⟩
        rw [status_not_proc hb] at hp
        cases hp
      rw [if_neg hca, if_neg hcb]
      exact ⟨h1, h2, h3, h4, h5, h6, h7, h8, h9⟩

theorem buildEquiv_propStep (ci : Nat) {s1 s2 : BuildData} (h : buildEquiv s1 s2) :
    buildEquiv (propStep s1 ci) (propStep s2 ci) := by
  have h3 : s1.containers = s2.containers := h.2.2.1
  have h9 : ∀ r, tagsUpToStatus (s1.tags r) (s2.tags r) := h.2.2.2.2.2.2.2.2
  rcases hc : s1.containers.get? ci with _ | c
  · have hc2 : s2.containers.get? ci = none := by rw [← h3]; exact hc
    rw [show propStep s1 ci = s1 from by unfold propStep; rw [hc],
      show propStep s2 ci = s2 from by unfold propStep; rw [hc2]]
    exact h
  · have hc2 : s2.containers.get? ci = some c := by rw [← h3]; exact hc
    rw [show propStep s1 ci = copyProcTags c.parent s1 (s1.tags (.cont ci)) from by
        unfold propStep; rw [hc],
      show propStep s2 ci = copyProcTags c.parent s2 (s2.tags (.cont ci)) from by
        unfold propStep; rw [hc2]]
    exact buildEquiv_copyProcTags c.parent (h9 _) h

theorem buildEquiv_propFold :
    ∀ (L : List Nat) {s1 s2 : BuildData}, buildEquiv s1 s2 →
      buildEquiv (L.foldl propStep s1) (L.foldl propStep s2) := by
  intro L
  induction L with
  | nil => intro s1 s2 h; exact h
  | cons ci L ih =>
    intro s1 s2 h
    rw [List.foldl_cons, List.foldl_cons]
    exact ih (buildEquiv_propStep ci h)

theorem buildEquiv_propagateTags {s1 s2 : BuildData} (h : buildEquiv s1 s2) :
    buildEquiv (propagateTags s1) (propagateTags s2) := by
  have h3 : s1.containers = s2.containers := h.2.2.1
  unfold propagateTags
  rw [show s2.containers.length = s1.containers.length from by rw [h3]]
  exact buildEquiv_propFold _ h

theorem buildEquiv_fold_addAppGroup :
    ∀ {rows rows' : List AppRow}, List.Forall₂ agreeExceptStatus rows rows' →
      ∀ {s1 s2 : BuildData}, buildEquiv s1 s2 →
        buildEquiv (rows.foldl addAppGroup s1) (rows'.foldl addAppGroup s2) := by
  intro rows rows' hf
  induction hf with
  | nil => intro s1 s2 h; exact h
  | cons hab hrest ih =>
    intro s1 s2 h
    exact ih (buildEquiv_addAppGroup h hab)

theorem buildEquiv_fold_addContainer :
    ∀ {rows rows' : List AppRow}, List.Forall₂ agreeExceptStatus rows rows' →
      ∀ {s1 s2 : BuildData}, buildEquiv s1 s2 →
        buildEquiv (rows.foldl addContainer s1) (rows'.foldl addContainer s2) := by
  intro rows rows' hf
  induction hf with
  | nil => intro s1 s2 h; exact h
  | cons hab hrest ih =>
    intro s1 s2 h
    exact ih (buildEquiv_addContainer h hab)

theorem buildEquiv_processFlows (flows : List FlowRow) :
    ∀ {s1 s2 : BuildData}, buildEquiv s1 s2 →
      buildEquiv (flows.foldl processFlow s1) (flows.foldl processFlow s2) := by
  induction flows with
  | nil => intro s1 s2 h; exact h
  | cons f fs ih =>
    intro s1 s2 h
    rw [List.foldl_cons, List.foldl_cons]
    exact ih (buildEquiv_processFlow f h)

/-- C9: two Applications inputs that agree on everything except the Status
column build workspaces with the same Groups (ids, names, systems), the same
Containers (ids, names, descriptions, parent assignment), and the same
Relationships; every non-`status:*` tag is shared — Status only drives the
`status:*` presentation tag. -/
theorem c9_status_topology (apps apps' : List AppRow) (flows : List FlowRow)
    (procs : List ProcRow) (h : List.Forall₂ agreeExceptStatus apps apps') :
    (buildWorkspace apps flows procs).groups =
      (buildWorkspace apps' flows procs).groups ∧
    (buildWorkspace apps flows procs).containers =
      (buildWorkspace apps' flows procs).containers ∧
    (buildWorkspace apps flows procs).rels =
      (buildWorkspace apps' flows procs).rels ∧
    ∀ (r : NodeRef) (t : String), strStarts t "status:" = false →
      (t ∈ (buildWorkspace apps flows procs).tags r ↔
        t ∈ (buildWorkspace apps' flows procs).tags r) := by
  have hfA : List.Forall₂ agreeExceptStatus
      (apps.filter (fun r => r.application == "#"))
      (apps'.filter (fun r => r.application == "#")) :=
    forall2_filter _ (fun a b hab => by rw [hab.2.2.1]) h
  have hfC : List.Forall₂ agreeExceptStatus
      (apps.filter (fun r => r.component == "#"))
      (apps'.filter (fun r => r.component == "#")) :=
    forall2_filter _ (fun a b hab => by rw [hab.2.2.2.1]) h
  have hequiv : buildEquiv (buildGraph apps flows) (buildGraph apps' flows) := by
    unfold buildGraph buildNodes
    exact buildEquiv_propagateTags
      (buildEquiv_processFlows flows
        (buildEquiv_fold_addContainer hfC
          (buildEquiv_fold_addAppGroup hfA (buildEquiv_refl initState))))
  refine ⟨?_, ?_, ?_, ?_⟩
  · unfold buildWorkspace
    rw [addViews_groups, addViews_groups]
    exact hequiv.2.1
  · unfold buildWorkspace
    rw [addViews_containers, addViews_containers]
    exact hequiv.2.2.1
  · unfold buildWorkspace
    rw [addViews_rels, addViews_rels]
    exact hequiv.2.2.2.2.2.2.1
  · intro r t ht
    unfold buildWorkspace
    rw [addViews_tags, addViews_tags]
    exact tagsUpToStatus_mem (hequiv.2.2.2.2.2.2.2.2 r) ht

/-- Witness for C9: `exApps'` changes every Status value of `exApps`, and the
built Groups coincide. -/
theorem c9_witness :
    (buildWorkspace exApps [exF1] []).groups =
      (buildWorkspace exApps' [exF1] []).groups :=
  (c9_status_topology exApps exApps' [exF1] []
    (List.Forall₂.cons ⟨rfl, rfl, rfl, rfl, rfl, rfl, rfl⟩
      (List.Forall₂.cons ⟨rfl, rfl, rfl, rfl, rfl, rfl, rfl⟩
        (List.Forall₂.cons ⟨rfl, rfl, rfl, rfl, rfl, rfl, rfl⟩
          (List.Forall₂.cons ⟨rfl, rfl, rfl, rfl, rfl, rfl, rfl⟩
            List.Forall₂.nil))))).1
